import Mathlib

/-!
# school-api: query normalisation, pagination envelope and CRUD handlers

A shallow embedding of the three controllers
`src/controllers/{course,student,teacher}.controller.js`.

* JavaScript numbers (`limit`, `page`, `offset`, `count`, `totalPages`) are IEEE-754
  doubles.  `JSNumber` has `NaN`, the infinities, both zeros and the finite doubles
  by their value; `parseInt`, `-`, `*`, `/` and `Math.ceil` round as the engine does
  (to nearest, ties to even).  An envelope holds the numbers as the handler passes
  them to `res.json`.
* The persistence layer (`db.Course`, `db.Student`, `db.Teacher`) is external
  to the controllers.  It is a parameter of every handler: a record of
  functions that either fail with an error or give a result.  Every handler
  returns, next to the HTTP response, the sequence of calls it made on it.
-/

namespace SchoolApi

/-! ## Data model -/

/-- A JSON scalar stored in a field of a record. -/
inductive Value where
  | null
  | num (z : Int)
  | str (s : String)
  deriving DecidableEq, Repr

/-- A record (a row of the store, or a request body): an object given by its fields. -/
abbrev Record := List (String × Value)

/-- The value of field `f` of the record, if the record has this field. -/
def Record.get (r : Record) (f : String) : Option Value := List.lookup f r

/-- The three models `db.Course`, `db.Student`, `db.Teacher`. -/
inductive Model where
  | Course
  | Student
  | Teacher
  deriving DecidableEq, Repr

/-- An error thrown by the store; the handlers only read `err.message`. -/
structure Err where
  message : String
  deriving DecidableEq, Repr

/-! ## JavaScript numbers -/

/-- A JavaScript number: `NaN`, an infinity, the negative zero, or a finite double given
by its value (`fin 0` is the positive zero).  The operations below always produce
doubles; a value that comes from outside (a store count) is whatever the store gives. -/
inductive JSNumber where
  | nan
  | inf (neg : Bool)
  | negZero
  | fin (q : ℚ)
  deriving DecidableEq, Repr

/-- The integer nearest to `n / d`, ties to the even one. -/
def roundHalfEven (n d : Nat) : Nat :=
  let q := n / d
  let r := n % d
  if 2 * r < d then q else if d < 2 * r then q + 1 else if q % 2 = 0 then q else q + 1

/-- The floor of the binary logarithm, by halving (`fuel` bounds the number of halvings). -/
def log2Fuel : Nat → Nat → Nat
  | 0, _ => 0
  | fuel + 1, n => if n < 2 then 0 else log2Fuel fuel (n / 2) + 1

/-- The double nearest to the positive rational `n / d` (ties to even, exponent not yet
bounded above), counted in units of `2 ^ (-1074)`, the spacing of the subnormal doubles:
the quotient is cut to 53 significant bits, and to whole units below `2 ^ (-1022)`. -/
def roundUnits (n d : Nat) : Nat :=
  let N := n * 2 ^ 1074
  let j := log2Fuel (N / d) (N / d) - 52
  roundHalfEven N (d * 2 ^ j) * 2 ^ j

/-- The number value of a real: the nearest double (round to nearest, ties to even),
an infinity from `2 ^ 1024` on, a zero with the sign of the real on underflow. -/
def toDouble (q : ℚ) : JSNumber :=
  if q = 0 then .fin 0
  else
    let M := roundUnits q.num.natAbs q.den
    if 2 ^ 2098 ≤ M then .inf (decide (q < 0))
    else if M = 0 then (if q < 0 then .negZero else .fin 0)
    else if q < 0 then .fin (-(mkRat M (2 ^ 1074))) else .fin (mkRat M (2 ^ 1074))

/-- The sign bit of a number. -/
def JSNumber.signBit : JSNumber → Bool
  | .nan => false
  | .inf neg => neg
  | .negZero => true
  | .fin q => decide (q < 0)

/-- The number is one of the two zeros. -/
def JSNumber.isZero : JSNumber → Bool
  | .negZero => true
  | .fin q => decide (q = 0)
  | _ => false

/-- The real value of a finite number (0 for both zeros; 0 also for `NaN` and the
infinities, which have none). -/
def JSNumber.toRat : JSNumber → ℚ
  | .fin q => q
  | _ => 0

/-- The zero with the given sign bit. -/
def signedZero (neg : Bool) : JSNumber := if neg then .negZero else .fin 0

/-- The conversion `ToBoolean` on numbers: `NaN`, `+0` and `-0` are falsy. -/
def JSNumber.toBoolean : JSNumber → Bool
  | .nan => false
  | .inf _ => true
  | .negZero => false
  | .fin q => decide (q ≠ 0)

/-- The operator `-` on numbers. -/
def JSNumber.sub : JSNumber → JSNumber → JSNumber
  | .nan, _ => .nan
  | _, .nan => .nan
  | .inf s, .inf t => if s = t then .nan else .inf s
  | .inf s, _ => .inf s
  | _, .inf t => .inf (!t)
  | .negZero, .negZero => .fin 0
  | .negZero, .fin q => if q = 0 then .negZero else toDouble (-q)
  | .fin p, .negZero => toDouble p
  | .fin p, .fin q => toDouble (p - q)

/-- The operator `*` on numbers. -/
def JSNumber.mul (x y : JSNumber) : JSNumber :=
  match x, y with
  | .nan, _ => .nan
  | _, .nan => .nan
  | .inf s, y => if y.isZero then .nan else .inf (s != y.signBit)
  | x, .inf t => if x.isZero then .nan else .inf (x.signBit != t)
  | x, y =>
    if x.isZero || y.isZero then signedZero (x.signBit != y.signBit)
    else toDouble (x.toRat * y.toRat)

/-- The operator `/` on numbers. -/
def JSNumber.div (x y : JSNumber) : JSNumber :=
  match x, y with
  | .nan, _ => .nan
  | _, .nan => .nan
  | .inf _, .inf _ => .nan
  | .inf s, y => .inf (s != y.signBit)
  | x, .inf t => signedZero (x.signBit != t)
  | x, y =>
    if y.isZero then (if x.isZero then .nan else .inf (x.signBit != y.signBit))
    else if x.isZero then signedZero (x.signBit != y.signBit)
    else toDouble (x.toRat / y.toRat)

instance : Sub JSNumber := ⟨JSNumber.sub⟩

instance : Mul JSNumber := ⟨JSNumber.mul⟩

instance : Div JSNumber := ⟨JSNumber.div⟩


/-! ## Requests, store and responses -/

/-- The `options` object of `findAndCountAll`; `includes` is its field `include`. -/
structure FindOptions where
  limit : JSNumber
  offset : JSNumber
  order : List (String × String)
  includes : List Model
  deriving DecidableEq, Repr

/-- The `options` object of `findByPk` in the get-by-id handlers; `includes` is its
field `include`. -/
structure PkOptions where
  includes : List Model
  deriving DecidableEq, Repr

/-- One model of the store.  `update` and `destroy` are the methods of a found
record; `update` gives the state of the record after the write. -/
structure ModelStore where
  create : Record → Except Err Record
  findAndCountAll : FindOptions → Except Err (JSNumber × List Record)
  findByPk : String → Option PkOptions → Except Err (Option Record)
  update : Record → Record → Except Err Record
  destroy : Record → Except Err Unit

/-- The object `db` imported by the controllers. -/
structure Db where
  Course : ModelStore
  Student : ModelStore
  Teacher : ModelStore

/-- A call made on the store during one request. -/
inductive StoreCall where
  | create (model : Model) (values : Record)
  | findAndCountAll (model : Model) (options : FindOptions)
  | findByPk (model : Model) (id : String) (options : Option PkOptions)
  | update (model : Model) (record : Record) (values : Record)
  | destroy (model : Model) (record : Record)
  deriving DecidableEq, Repr

/-- The query string `req.query`; an absent parameter is `none`. -/
structure Query where
  limit : Option String
  page : Option String
  sort : Option String
  populate : Option String
  deriving DecidableEq, Repr

/-- The route parameters `req.params`. -/
structure Params where
  id : String
  deriving DecidableEq, Repr

/-- The request `req`. -/
structure Request where
  params : Params
  query : Query
  body : Record
  deriving DecidableEq, Repr

/-- The body passed to `res.json`, numbers as the handler computed them (JSON then
writes `NaN` and the infinities as `null`, and `-0` as `0`). -/
inductive ResBody where
  | record (r : Record)
  | envelope (total : JSNumber) (page : JSNumber) (totalPages : JSNumber)
      (data : List Record)
  | error (error : String)
  | message (message : String)
  deriving DecidableEq, Repr

/-- The response sent through `res`. -/
structure Response where
  status : Nat
  body : ResBody
  deriving DecidableEq, Repr

/-- What one run of a handler does: the store calls in order, then the response. -/
structure Outcome where
  calls : List StoreCall
  response : Response
  deriving DecidableEq, Repr

/-! ## `parseInt`, `||` and `Math.ceil` -/

/-- White space and line terminators skipped by `parseInt` at the start of its input. -/
def isStrWhiteSpaceChar (c : Char) : Bool :=
  c.toNat = 0x09 || c.toNat = 0x0A || c.toNat = 0x0B || c.toNat = 0x0C || c.toNat = 0x0D ||
  c.toNat = 0x20 || c.toNat = 0xA0 || c.toNat = 0x1680 ||
  (0x2000 ≤ c.toNat && c.toNat ≤ 0x200A) ||
  c.toNat = 0x2028 || c.toNat = 0x2029 || c.toNat = 0x202F || c.toNat = 0x205F ||
  c.toNat = 0x3000 || c.toNat = 0xFEFF

/-- The value of a character as a digit of radix `R`, if it is one. -/
def radixDigit (R : Nat) (c : Char) : Option Nat :=
  let v : Option Nat :=
    if 48 ≤ c.toNat ∧ c.toNat ≤ 57 then some (c.toNat - 48)
    else if 97 ≤ c.toNat ∧ c.toNat ≤ 122 then some (c.toNat - 87)
    else if 65 ≤ c.toNat ∧ c.toNat ≤ 90 then some (c.toNat - 55)
    else none
  v.filter (fun d => d < R)

/-- The integer written by the digits `Z` in radix `R`. -/
def mathInt (R : Nat) (Z : List Char) : Nat :=
  Z.foldl (fun acc c => acc * R + (radixDigit R c).getD 0) 0

/-- The number value of the integer `n` with the sign `neg`: the signed zero for 0,
the nearest double otherwise. -/
def integerNumber (neg : Bool) (n : Nat) : JSNumber :=
  if n = 0 then signedZero neg
  else if neg then toDouble (-(n : ℚ)) else toDouble (n : ℚ)

/-- The builtin `parseInt(string)` with no radix argument, on a query value
(`none` is `undefined`, whose string form is `"undefined"`): white space is skipped, a
sign and a `0x` mark are read, then the longest run of digits; no digit gives `NaN`. -/
def parseInt (string : Option String) : JSNumber :=
  let inputString : String := match string with
    | some s => s
    | none => "undefined"
  let S := inputString.data.dropWhile isStrWhiteSpaceChar
  let neg : Bool := decide (S.head? = some '-')
  let S := if S.head? = some '+' ∨ S.head? = some '-' then S.tail else S
  let RS : Nat × List Char := match S with
    | '0' :: 'x' :: rest => (16, rest)
    | '0' :: 'X' :: rest => (16, rest)
    | _ => (10, S)
  let Z := RS.2.takeWhile (fun c => (radixDigit RS.1 c).isSome)
  if Z = [] then .nan else integerNumber neg (mathInt RS.1 Z)

/-- The expression `x || d` on numbers: `x` when it is truthy, else `d`. -/
def orElse (x d : JSNumber) : JSNumber := if x.toBoolean then x else d

/-- The builtin `Math.ceil`. -/
def Math.ceil : JSNumber → JSNumber
  | .fin q => if Int.ceil q = 0 ∧ q < 0 then .negZero else .fin (Int.ceil q)
  | x => x

/-! ## Course handlers

Each handler runs its store calls inside `try`; the `catch` sends status 500 with
`{ error: err.message }`.  `res.json` without `res.status` sends status 200. -/

/-- Handler `createCourse` (course.controller.js, lines 66-73). -/
def createCourse (db : Db) (req : Request) : Outcome :=
  match db.Course.create req.body with
  | .ok course => ⟨[.create .Course req.body], ⟨201, .record course⟩⟩
  | .error err => ⟨[.create .Course req.body], ⟨500, .error err.message⟩⟩

/-- Handler `getAllCourses` (course.controller.js, lines 75-107). -/
def getAllCourses (db : Db) (req : Request) : Outcome :=
  let limit := orElse (parseInt req.query.limit) (.fin 10)
  let page := orElse (parseInt req.query.page) (.fin 1)
  let sort := if req.query.sort = some "asc" then "ASC" else "DESC"
  let populate := req.query.populate
  let includes : List Model := []
  let includes := if populate = some "teacher" then includes ++ [Model.Teacher] else includes
  let includes := if populate = some "students" then includes ++ [Model.Student] else includes
  let options : FindOptions := ⟨limit, (page - .fin 1) * limit, [("createdAt", sort)], includes⟩
  match db.Course.findAndCountAll options with
  | .ok (count, rows) =>
    ⟨[.findAndCountAll .Course options],
      ⟨200, .envelope count page (Math.ceil (count / limit)) rows⟩⟩
  | .error err => ⟨[.findAndCountAll .Course options], ⟨500, .error err.message⟩⟩

/-- Handler `getCourseById` (course.controller.js, lines 170-188). -/
def getCourseById (db : Db) (req : Request) : Outcome :=
  let populate := req.query.populate
  let includes : List Model := []
  let includes := if populate = some "teacher" then includes ++ [Model.Teacher] else includes
  let includes := if populate = some "students" then includes ++ [Model.Student] else includes
  let options : PkOptions := ⟨includes⟩
  match db.Course.findByPk req.params.id (some options) with
  | .ok none => ⟨[.findByPk .Course req.params.id (some options)], ⟨404, .message "Not found"⟩⟩
  | .ok (some course) => ⟨[.findByPk .Course req.params.id (some options)], ⟨200, .record course⟩⟩
  | .error err => ⟨[.findByPk .Course req.params.id (some options)], ⟨500, .error err.message⟩⟩

/-- Handler `updateCourse` (course.controller.js, lines 190-199). -/
def updateCourse (db : Db) (req : Request) : Outcome :=
  match db.Course.findByPk req.params.id none with
  | .ok none => ⟨[.findByPk .Course req.params.id none], ⟨404, .message "Not found"⟩⟩
  | .ok (some course) =>
    match db.Course.update course req.body with
    | .ok course1 =>
      ⟨[.findByPk .Course req.params.id none, .update .Course course req.body],
        ⟨200, .record course1⟩⟩
    | .error err =>
      ⟨[.findByPk .Course req.params.id none, .update .Course course req.body],
        ⟨500, .error err.message⟩⟩
  | .error err => ⟨[.findByPk .Course req.params.id none], ⟨500, .error err.message⟩⟩

/-- Handler `deleteCourse` (course.controller.js, lines 201-210). -/
def deleteCourse (db : Db) (req : Request) : Outcome :=
  match db.Course.findByPk req.params.id none with
  | .ok none => ⟨[.findByPk .Course req.params.id none], ⟨404, .message "Not found"⟩⟩
  | .ok (some course) =>
    match db.Course.destroy course with
    | .ok _ =>
      ⟨[.findByPk .Course req.params.id none, .destroy .Course course],
        ⟨200, .message "Deleted"⟩⟩
    | .error err =>
      ⟨[.findByPk .Course req.params.id none, .destroy .Course course],
        ⟨500, .error err.message⟩⟩
  | .error err => ⟨[.findByPk .Course req.params.id none], ⟨500, .error err.message⟩⟩

/-! ## Student handlers -/

/-- Handler `createStudent` (student.controller.js). -/
def createStudent (db : Db) (req : Request) : Outcome :=
  match db.Student.create req.body with
  | .ok student => ⟨[.create .Student req.body], ⟨201, .record student⟩⟩
  | .error err => ⟨[.create .Student req.body], ⟨500, .error err.message⟩⟩

/-- Handler `getAllStudents` (student.controller.js). -/
def getAllStudents (db : Db) (req : Request) : Outcome :=
  let limit := orElse (parseInt req.query.limit) (.fin 10)
  let page := orElse (parseInt req.query.page) (.fin 1)
  let sort := if req.query.sort = some "asc" then "ASC" else "DESC"
  let populate := req.query.populate
  let includes : List Model := []
  let includes := if populate = some "courses" then includes ++ [Model.Course] else includes
  let options : FindOptions := ⟨limit, (page - .fin 1) * limit, [("createdAt", sort)], includes⟩
  match db.Student.findAndCountAll options with
  | .ok (count, rows) =>
    ⟨[.findAndCountAll .Student options],
      ⟨200, .envelope count page (Math.ceil (count / limit)) rows⟩⟩
  | .error err => ⟨[.findAndCountAll .Student options], ⟨500, .error err.message⟩⟩

/-- Handler `getStudentById` (student.controller.js). -/
def getStudentById (db : Db) (req : Request) : Outcome :=
  let populate := req.query.populate
  let includes : List Model := []
  let includes := if populate = some "courses" then includes ++ [Model.Course] else includes
  let options : PkOptions := ⟨includes⟩
  match db.Student.findByPk req.params.id (some options) with
  | .ok none => ⟨[.findByPk .Student req.params.id (some options)], ⟨404, .message "Not found"⟩⟩
  | .ok (some student) => ⟨[.findByPk .Student req.params.id (some options)], ⟨200, .record student⟩⟩
  | .error err => ⟨[.findByPk .Student req.params.id (some options)], ⟨500, .error err.message⟩⟩

/-- Handler `updateStudent` (student.controller.js). -/
def updateStudent (db : Db) (req : Request) : Outcome :=
  match db.Student.findByPk req.params.id none with
  | .ok none => ⟨[.findByPk .Student req.params.id none], ⟨404, .message "Not found"⟩⟩
  | .ok (some student) =>
    match db.Student.update student req.body with
    | .ok student1 =>
      ⟨[.findByPk .Student req.params.id none, .update .Student student req.body],
        ⟨200, .record student1⟩⟩
    | .error err =>
      ⟨[.findByPk .Student req.params.id none, .update .Student student req.body],
        ⟨500, .error err.message⟩⟩
  | .error err => ⟨[.findByPk .Student req.params.id none], ⟨500, .error err.message⟩⟩

/-- Handler `deleteStudent` (student.controller.js). -/
def deleteStudent (db : Db) (req : Request) : Outcome :=
  match db.Student.findByPk req.params.id none with
  | .ok none => ⟨[.findByPk .Student req.params.id none], ⟨404, .message "Not found"⟩⟩
  | .ok (some student) =>
    match db.Student.destroy student with
    | .ok _ =>
      ⟨[.findByPk .Student req.params.id none, .destroy .Student student],
        ⟨200, .message "Deleted"⟩⟩
    | .error err =>
      ⟨[.findByPk .Student req.params.id none, .destroy .Student student],
        ⟨500, .error err.message⟩⟩
  | .error err => ⟨[.findByPk .Student req.params.id none], ⟨500, .error err.message⟩⟩

/-! ## Teacher handlers -/

/-- Handler `createTeacher` (teacher.controller.js). -/
def createTeacher (db : Db) (req : Request) : Outcome :=
  match db.Teacher.create req.body with
  | .ok teacher => ⟨[.create .Teacher req.body], ⟨201, .record teacher⟩⟩
  | .error err => ⟨[.create .Teacher req.body], ⟨500, .error err.message⟩⟩

/-- Handler `getAllTeachers` (teacher.controller.js). -/
def getAllTeachers (db : Db) (req : Request) : Outcome :=
  let limit := orElse (parseInt req.query.limit) (.fin 10)
  let page := orElse (parseInt req.query.page) (.fin 1)
  let sort := if req.query.sort = some "asc" then "ASC" else "DESC"
  let populate := req.query.populate
  let includes : List Model := []
  let includes := if populate = some "courses" then includes ++ [Model.Course] else includes
  let options : FindOptions := ⟨limit, (page - .fin 1) * limit, [("createdAt", sort)], includes⟩
  match db.Teacher.findAndCountAll options with
  | .ok (count, rows) =>
    ⟨[.findAndCountAll .Teacher options],
      ⟨200, .envelope count page (Math.ceil (count / limit)) rows⟩⟩
  | .error err => ⟨[.findAndCountAll .Teacher options], ⟨500, .error err.message⟩⟩

/-- Handler `getTeacherById` (teacher.controller.js). -/
def getTeacherById (db : Db) (req : Request) : Outcome :=
  let populate := req.query.populate
  let includes : List Model := []
  let includes := if populate = some "courses" then includes ++ [Model.Course] else includes
  let options : PkOptions := ⟨includes⟩
  match db.Teacher.findByPk req.params.id (some options) with
  | .ok none => ⟨[.findByPk .Teacher req.params.id (some options)], ⟨404, .message "Not found"⟩⟩
  | .ok (some teacher) => ⟨[.findByPk .Teacher req.params.id (some options)], ⟨200, .record teacher⟩⟩
  | .error err => ⟨[.findByPk .Teacher req.params.id (some options)], ⟨500, .error err.message⟩⟩

/-- Handler `updateTeacher` (teacher.controller.js). -/
def updateTeacher (db : Db) (req : Request) : Outcome :=
  match db.Teacher.findByPk req.params.id none with
  | .ok none => ⟨[.findByPk .Teacher req.params.id none], ⟨404, .message "Not found"⟩⟩
  | .ok (some teacher) =>
    match db.Teacher.update teacher req.body with
    | .ok teacher1 =>
      ⟨[.findByPk .Teacher req.params.id none, .update .Teacher teacher req.body],
        ⟨200, .record teacher1⟩⟩
    | .error err =>
      ⟨[.findByPk .Teacher req.params.id none, .update .Teacher teacher req.body],
        ⟨500, .error err.message⟩⟩
  | .error err => ⟨[.findByPk .Teacher req.params.id none], ⟨500, .error err.message⟩⟩

/-- Handler `deleteTeacher` (teacher.controller.js). -/
def deleteTeacher (db : Db) (req : Request) : Outcome :=
  match db.Teacher.findByPk req.params.id none with
  | .ok none => ⟨[.findByPk .Teacher req.params.id none], ⟨404, .message "Not found"⟩⟩
  | .ok (some teacher) =>
    match db.Teacher.destroy teacher with
    | .ok _ =>
      ⟨[.findByPk .Teacher req.params.id none, .destroy .Teacher teacher],
        ⟨200, .message "Deleted"⟩⟩
    | .error err =>
      ⟨[.findByPk .Teacher req.params.id none, .destroy .Teacher teacher],
        ⟨500, .error err.message⟩⟩
  | .error err => ⟨[.findByPk .Teacher req.params.id none], ⟨500, .error err.message⟩⟩

/-! ## The handlers as one family -/

/-- The five operations every entity exposes. -/
inductive Op where
  | create
  | getAll
  | getById
  | update
  | delete
  deriving DecidableEq, Repr

/-- The handler of operation `op` of entity `m`. -/
def handler : Model → Op → Db → Request → Outcome
  | .Course, .create => createCourse
  | .Course, .getAll => getAllCourses
  | .Course, .getById => getCourseById
  | .Course, .update => updateCourse
  | .Course, .delete => deleteCourse
  | .Student, .create => createStudent
  | .Student, .getAll => getAllStudents
  | .Student, .getById => getStudentById
  | .Student, .update => updateStudent
  | .Student, .delete => deleteStudent
  | .Teacher, .create => createTeacher
  | .Teacher, .getAll => getAllTeachers
  | .Teacher, .getById => getTeacherById
  | .Teacher, .update => updateTeacher
  | .Teacher, .delete => deleteTeacher

/-- The part of `db` that belongs to model `m`. -/
def Db.store (db : Db) : Model → ModelStore
  | .Course => db.Course
  | .Student => db.Student
  | .Teacher => db.Teacher

/-- The error with which the store answers a call, if it fails on it. -/
def StoreCall.failure (db : Db) : StoreCall → Option Err
  | .create m values => match (db.store m).create values with
    | .error e => some e
    | .ok _ => none
  | .findAndCountAll m options => match (db.store m).findAndCountAll options with
    | .error e => some e
    | .ok _ => none
  | .findByPk m id options => match (db.store m).findByPk id options with
    | .error e => some e
    | .ok _ => none
  | .update m record values => match (db.store m).update record values with
    | .error e => some e
    | .ok _ => none
  | .destroy m record => match (db.store m).destroy record with
    | .error e => some e
    | .ok _ => none

/-- The `include` list a call carries (empty for a call without options). -/
def StoreCall.includes : StoreCall → List Model
  | .findAndCountAll _ options => options.includes
  | .findByPk _ _ (some options) => options.includes
  | _ => []

/-- The relation each `populate` value of the API documentation attaches, per entity:
`[teacher, students]` for courses, `[courses]` for students and for teachers. -/
def populateEnum : Model → List (String × Model)
  | .Course => [("teacher", .Teacher), ("students", .Student)]
  | .Student => [("courses", .Course)]
  | .Teacher => [("courses", .Course)]

/-- The include list the `populate` enum of entity `m` prescribes for a raw value. -/
def expectedIncludes (m : Model) (populate : Option String) : List Model :=
  match populate with
  | none => []
  | some p => match (populateEnum m).lookup p with
    | some related => [related]
    | none => []

/-- A decimal digit character. -/
def isDec (c : Char) : Prop := 48 ≤ c.toNat ∧ c.toNat ≤ 57

/-! ## A reference store -/

/-- The creation time of a record: its numeric field `createdAt`. -/
def createdAt (r : Record) : Int :=
  match r.get "createdAt" with
  | some (.num z) => z
  | _ => 0

/-- The record `r` with every field of `values` written over it; the other fields
keep their value. -/
def Record.assign (r values : Record) : Record :=
  values ++ r.filter (fun kv => (values.get kv.1).isNone)

/-- The natural number a `LIMIT` or `OFFSET` must be, if the number is one. -/
def JSNumber.toNat? : JSNumber → Option Nat
  | .fin q => if q.den = 1 ∧ 0 ≤ q.num then some q.num.toNat else none
  | .negZero => some 0
  | _ => none

/-- Modelled from the spec: the store behind `db` (`../models/index.js`) is not among
the controllers.  This is a store over a fixed collection `coll` as the spec describes
its interface: `findAndCountAll` counts the collection and gives at most `limit` rows
starting at `offset` of the collection ordered by `createdAt` in the requested
direction (it rejects a `limit` or `offset` that is not a natural number), `findByPk`
gives the record with that numeric `id` or reports absence, `update` overwrites exactly
the supplied fields. -/
def memoryStore (coll : List Record) : ModelStore where
  create := fun values => .ok values
  findAndCountAll := fun options =>
    match options.limit.toNat?, options.offset.toNat? with
    | some limit, some offset =>
      let ordered :=
        if options.order = [("createdAt", "ASC")] then
          coll.insertionSort (fun a b => createdAt a ≤ createdAt b)
        else coll.insertionSort (fun a b => createdAt b ≤ createdAt a)
      .ok (.fin coll.length, (ordered.drop offset).take limit)
    | _, _ => .error ⟨"LIMIT and OFFSET must be natural numbers"⟩
  findByPk := fun id _ =>
    .ok (coll.find? (fun r => match r.get "id" with
      | some (.num z) => toString z = id
      | _ => false))
  update := fun record values => .ok (record.assign values)
  destroy := fun _ => .ok ()

/-- The same reference store behind each of the three models. -/
def memoryDb (courses students teachers : List Record) : Db :=
  ⟨memoryStore courses, memoryStore students, memoryStore teachers⟩

/-- A store that answers every page query with `count` and `rows`, finds `found` under
every identifier and accepts every write. -/
def fixedStore (count : JSNumber) (rows : List Record) (found : Option Record) : ModelStore where
  create := fun values => .ok values
  findAndCountAll := fun _ => .ok (count, rows)
  findByPk := fun _ _ => .ok found
  update := fun record values => .ok (record.assign values)
  destroy := fun _ => .ok ()

/-- The store `fixedStore` behind each of the three models. -/
def fixedDb (count : JSNumber) (rows : List Record) (found : Option Record) : Db :=
  ⟨fixedStore count rows found, fixedStore count rows found, fixedStore count rows found⟩

/-- A store whose lookups find `found` and whose writes (`create`, `update`, `destroy`)
fail with the error `err`. -/
def readOnlyStore (found : Record) (err : Err) : ModelStore where
  create := fun _ => .error err
  findAndCountAll := fun _ => .ok (.fin 1, [found])
  findByPk := fun _ _ => .ok (some found)
  update := fun _ _ => .error err
  destroy := fun _ => .error err

/-- The store `readOnlyStore` behind each of the three models. -/
def readOnlyDb (found : Record) (err : Err) : Db :=
  ⟨readOnlyStore found err, readOnlyStore found err, readOnlyStore found err⟩

/-- A store returns at most `limit` rows when the limit is a natural number. -/
def AtMostLimit (s : ModelStore) : Prop :=
  ∀ (options : FindOptions) (L : Nat) count rows, options.limit = .fin (L : ℚ) →
    s.findAndCountAll options = .ok (count, rows) → rows.length ≤ L

/-- A store whose `update` overwrites exactly the fields present in the values: every
other field of the record keeps its value. -/
def OverwritesSupplied (s : ModelStore) : Prop :=
  ∀ record values updated, s.update record values = .ok updated →
    (∀ f, values.get f = none → updated.get f = record.get f) ∧
    (∀ f v, values.get f = some v → updated.get f = some v)

/-- The student created at time `i`, with identifier `i`. -/
def student (i : Nat) : Record :=
  [("id", .num i), ("name", .str ("student" ++ toString i)), ("createdAt", .num i)]

/-- Twelve students, in no particular order. -/
def twelveStudents : List Record :=
  [7, 3, 12, 1, 9, 5, 10, 2, 8, 4, 11, 6].map student

/-! ## Decimal numerals and `parseInt` -/

theorem radixDigit_of_isDec {c : Char} (h : isDec c) :
    radixDigit 10 c = some (c.toNat - 48) := by
  obtain ⟨h1, h2⟩ := h
  have h3 : c.toNat - 48 < 10 := by omega
  simp [radixDigit, h1, h2, Option.filter, h3]

theorem not_white_of_isDec {c : Char} (h : isDec c) : isStrWhiteSpaceChar c = false := by
  obtain ⟨h1, h2⟩ := h
  simp only [isStrWhiteSpaceChar, Bool.or_eq_false_iff, Bool.and_eq_false_iff,
    decide_eq_false_iff_not]
  omega

theorem digitChar_isDec {d : Nat} (h : d < 10) :
    isDec (Nat.digitChar d) ∧ (Nat.digitChar d).toNat - 48 = d := by
  unfold isDec
  interval_cases d <;> decide

theorem mathInt_append_singleton (R : Nat) (l : List Char) (c : Char) :
    mathInt R (l ++ [c]) = mathInt R l * R + (radixDigit R c).getD 0 := by
  simp [mathInt, List.foldl_append]

/-- The digits `Nat.toDigitsCore` puts in front of its accumulator are decimal digits
that write the number. -/
theorem toDigitsCore_spec : ∀ (fuel n : Nat) (ds : List Char), n < fuel →
    ∃ pre : List Char, Nat.toDigitsCore 10 fuel n ds = pre ++ ds ∧ pre ≠ [] ∧
      (∀ c ∈ pre, isDec c) ∧ mathInt 10 pre = n := by
  intro fuel
  induction fuel with
  | zero => intro n ds h; omega
  | succ fuel ih =>
    intro n ds h
    obtain ⟨hd, hv⟩ := digitChar_isDec (Nat.mod_lt n (by decide : 10 > 0))
    unfold Nat.toDigitsCore
    by_cases h0 : n / 10 = 0
    · refine ⟨[Nat.digitChar (n % 10)], by simp [h0], by simp, by simpa using hd, ?_⟩
      have : mathInt 10 ([] ++ [Nat.digitChar (n % 10)]) = n := by
        rw [mathInt_append_singleton, radixDigit_of_isDec hd, hv]
        simp [mathInt]; omega
      simpa using this
    · have hlt : n / 10 < fuel := by omega
      obtain ⟨pre, hpre, _, hall, hval⟩ := ih (n / 10) (Nat.digitChar (n % 10) :: ds) hlt
      refine ⟨pre ++ [Nat.digitChar (n % 10)], by simp [h0, hpre], by simp, ?_, ?_⟩
      · intro c hc
        rcases List.mem_append.1 hc with hc | hc
        · exact hall c hc
        · simp at hc; subst hc; exact hd
      · rw [mathInt_append_singleton, radixDigit_of_isDec hd, hv, hval]
        simp; omega

theorem toDigits_spec (n : Nat) :
    Nat.toDigits 10 n ≠ [] ∧ (∀ c ∈ Nat.toDigits 10 n, isDec c) ∧
      mathInt 10 (Nat.toDigits 10 n) = n := by
  obtain ⟨pre, hpre, hne, hall, hval⟩ := toDigitsCore_spec (n + 1) n [] (Nat.lt_succ_self n)
  have : Nat.toDigits 10 n = pre := by simpa [Nat.toDigits] using hpre
  rw [this]; exact ⟨hne, hall, hval⟩

theorem takeWhile_dec {ds : List Char} (hall : ∀ c ∈ ds, isDec c) :
    ds.takeWhile (fun c => (radixDigit 10 c).isSome) = ds := by
  rw [List.takeWhile_eq_self_iff]
  intro c hc
  simp [radixDigit_of_isDec (hall c hc)]

theorem isDec_ne {c : Char} (h : isDec c) :
    c ≠ '-' ∧ c ≠ '+' ∧ c ≠ 'x' ∧ c ≠ 'X' := by
  obtain ⟨h1, h2⟩ := h
  refine ⟨?_, ?_, ?_, ?_⟩ <;> rintro rfl <;> revert h1 h2 <;> decide

/-- On a non-empty run of decimal digits `parseInt` gives the number they write, and
its negative when the run follows a minus sign. -/
theorem parseInt_dec_core {ds : List Char} (hne : ds ≠ []) (hall : ∀ c ∈ ds, isDec c) :
    parseInt (some (String.mk ds)) = integerNumber false (mathInt 10 ds) ∧
    parseInt (some (String.mk ('-' :: ds))) = integerNumber true (mathInt 10 ds) := by
  have hm : isStrWhiteSpaceChar '-' = false := by decide
  have htw := takeWhile_dec hall
  match ds, hne, hall, htw with
  | [c], _, hall, htw =>
    have hc : isDec c := hall c (by simp)
    have hw := not_white_of_isDec hc
    obtain ⟨e1, e2, -, -⟩ := isDec_ne hc
    constructor
    · simp [parseInt, List.dropWhile, hw, e1, e2, htw]
    · simp [parseInt, List.dropWhile, hm, htw]
  | c :: d :: rest, _, hall, htw =>
    have hc : isDec c := hall c (by simp)
    have hd : isDec d := hall d (by simp)
    have hw := not_white_of_isDec hc
    obtain ⟨e1, e2, -, -⟩ := isDec_ne hc
    obtain ⟨-, -, e3, e4⟩ := isDec_ne hd
    constructor
    · simp [parseInt, List.dropWhile, hw, e1, e2, e3, e4, htw]
    · simp [parseInt, List.dropWhile, hm, e3, e4, htw]

/-- The builtin `parseInt` reads the decimal text of a natural number as the number
value of that integer, and as that of its negative after a minus sign. -/
theorem parseInt_toString (n : Nat) :
    parseInt (some (toString n)) = integerNumber false n ∧
    parseInt (some ("-" ++ toString n)) = integerNumber true n := by
  obtain ⟨hne, hall, hval⟩ := toDigits_spec n
  have h := parseInt_dec_core hne hall
  rw [hval] at h
  exact h

theorem radixDigit_of_not_isDec {c : Char} (h : ¬ isDec c) : radixDigit 10 c = none := by
  unfold isDec at h
  unfold radixDigit
  simp only [Option.filter]
  split <;> rename_i hv
  · split at hv
    · omega
    · split at hv
      · simp only [Option.some.injEq] at hv; subst hv
        simp; omega
      · split at hv
        · simp only [Option.some.injEq] at hv; subst hv
          simp; omega
        · simp at hv
  · rfl

/-- Text without any decimal digit is not a number for `parseInt`. -/
theorem parseInt_no_digit (s : String) (h : ∀ c ∈ s.data, ¬ isDec c) :
    parseInt (some s) = .nan := by
  have hz : isDec '0' := by unfold isDec; decide
  have hS : ∀ c ∈ s.data.dropWhile isStrWhiteSpaceChar, ¬ isDec c := fun c hc =>
    h c ((List.dropWhile_sublist _).subset hc)
  unfold parseInt
  simp only []
  generalize s.data.dropWhile isStrWhiteSpaceChar = S at hS
  have hS1 : ∀ c ∈ (if S.head? = some '+' ∨ S.head? = some '-' then S.tail else S),
      ¬ isDec c := by
    intro c hc
    split at hc
    · exact hS c (List.mem_of_mem_tail hc)
    · exact hS c hc
  generalize (if S.head? = some '+' ∨ S.head? = some '-' then S.tail else S) = T at hS1
  match T, hS1 with
  | [], _ => simp
  | c :: rest, hT =>
    have hc : ¬ isDec c := hT c (by simp)
    have hc0 : c ≠ '0' := by rintro rfl; exact hc hz
    have hr := radixDigit_of_not_isDec hc
    simp [List.takeWhile, hr, hc0]
/-! ## Rounding to a double -/

theorem log2Fuel_spec : ∀ (fuel n : Nat), n ≤ fuel → 0 < n →
    2 ^ log2Fuel fuel n ≤ n ∧ n < 2 ^ (log2Fuel fuel n + 1) := by
  intro fuel
  induction fuel with
  | zero => intro n h h0; omega
  | succ fuel ih =>
    intro n h h0
    unfold log2Fuel
    by_cases h2 : n < 2
    · have : n = 1 := by omega
      subst this; simp
    · simp only [h2, if_false]
      obtain ⟨ih1, ih2⟩ := ih (n / 2) (by omega) (by omega)
      generalize log2Fuel fuel (n / 2) = e at ih1 ih2
      constructor
      · rw [pow_succ]; omega
      · rw [pow_succ] at ih2 ⊢; rw [pow_succ]; omega

theorem roundHalfEven_bounds (N D : Nat) (hD : 0 < D) :
    2 * N ≤ 2 * (roundHalfEven N D * D) + D ∧ 2 * (roundHalfEven N D * D) ≤ 2 * N + D := by
  have hdm := Nat.div_add_mod N D
  have hr := Nat.mod_lt N hD
  have hq : (N / D + 1) * D = D * (N / D) + D := by ring
  have hq0 : N / D * D = D * (N / D) := by ring
  unfold roundHalfEven
  simp only []
  split
  · rw [hq0]; omega
  · split
    · rw [hq]; omega
    · split
      · rw [hq0]; omega
      · rw [hq]; omega

theorem roundHalfEven_exact (N D : Nat) (hD : 0 < D) (h : D ∣ N) :
    roundHalfEven N D * D = N := by
  have hr : N % D = 0 := Nat.mod_eq_zero_of_dvd h
  unfold roundHalfEven
  simp only [hr, Nat.mul_zero, hD, if_true]
  exact Nat.div_mul_cancel h

/-- The rounding is exact on the integers up to `2 ^ 53`. -/
theorem roundUnits_int (n : Nat) (hn : 0 < n) (h53 : n ≤ 2 ^ 53) :
    roundUnits n 1 = n * 2 ^ 1074 := by
  unfold roundUnits
  simp only [Nat.div_one, Nat.one_mul]
  have hN : 0 < n * 2 ^ 1074 := Nat.mul_pos hn (Nat.two_pow_pos _)
  obtain ⟨hlo, -⟩ := log2Fuel_spec (n * 2 ^ 1074) (n * 2 ^ 1074) (le_refl _) hN
  generalize log2Fuel (n * 2 ^ 1074) (n * 2 ^ 1074) = k at hlo
  have hk : k ≤ 1127 := by
    by_contra hcon
    have h1 : 2 ^ 1128 ≤ 2 ^ k := Nat.pow_le_pow_right (by decide) (by omega)
    have h2 : n * 2 ^ 1074 ≤ 2 ^ 53 * 2 ^ 1074 := Nat.mul_le_mul_right _ h53
    have h3 : (2 : Nat) ^ 53 * 2 ^ 1074 < 2 ^ 1128 := by
      rw [← pow_add]; exact Nat.pow_lt_pow_right (by decide) (by decide)
    omega
  have hdvd : 2 ^ (k - 52) ∣ n * 2 ^ 1074 := by
    by_cases hk2 : k = 1127
    · subst hk2
      have hn53 : n = 2 ^ 53 := by
        have h4 : (2 : Nat) ^ 1127 = 2 ^ 53 * 2 ^ 1074 := by rw [← pow_add]
        rw [h4] at hlo
        have := Nat.le_of_mul_le_mul_right hlo (Nat.two_pow_pos _)
        omega
      rw [hn53, ← pow_add]
      exact pow_dvd_pow 2 (by decide)
    · exact Dvd.dvd.mul_left (pow_dvd_pow 2 (by omega)) n
  exact roundHalfEven_exact _ _ (Nat.two_pow_pos _) hdvd

theorem mkRat_units (n : Nat) : mkRat ((n * 2 ^ 1074 : Nat) : Int) (2 ^ 1074) = (n : ℚ) := by
  rw [Rat.mkRat_eq_div]
  push_cast
  field_simp

theorem units_lt (n : Nat) (h53 : n ≤ 2 ^ 53) : ¬ 2 ^ 2098 ≤ n * 2 ^ 1074 := by
  have h2 : n * 2 ^ 1074 ≤ 2 ^ 53 * 2 ^ 1074 := Nat.mul_le_mul_right _ h53
  have h3 : (2 : Nat) ^ 53 * 2 ^ 1074 < 2 ^ 2098 := by
    rw [← pow_add]; exact Nat.pow_lt_pow_right (by decide) (by decide)
  omega

/-- The integers up to `2 ^ 53` in absolute value are doubles. -/
theorem toDouble_natCast (n : Nat) (h53 : n ≤ 2 ^ 53) :
    toDouble (n : ℚ) = .fin n ∧ (0 < n → toDouble (-(n : ℚ)) = .fin (-(n : ℚ))) := by
  by_cases hn : n = 0
  · subst hn; simp [toDouble]
  · have hpos : 0 < n := Nat.pos_of_ne_zero hn
    have hq : (n : ℚ) ≠ 0 := by exact_mod_cast hn
    have hqpos : (0 : ℚ) < n := by exact_mod_cast hpos
    have hM := roundUnits_int n hpos h53
    have hlt := units_lt n h53
    have hne : n * 2 ^ 1074 ≠ 0 := Nat.mul_ne_zero hn (by positivity)
    constructor
    · unfold toDouble
      simp only [hq, if_false, Rat.num_natCast, Int.natAbs_ofNat, Rat.den_natCast, hM, hlt,
        hne, not_lt.2 hqpos.le]
      rw [mkRat_units]
    · intro _
      have hneg : -(n : ℚ) < 0 := by linarith
      have hq2 : -(n : ℚ) ≠ 0 := by linarith
      unfold toDouble
      simp only [hq2, if_false, Rat.neg_num, Rat.neg_den, Rat.num_natCast, Int.natAbs_neg,
        Int.natAbs_ofNat, Rat.den_natCast, hM, hlt, hne, hneg, if_true]
      rw [mkRat_units]

theorem pow2_dvd_of_le (d : Nat) (h53 : d ≤ 2 ^ 53) (e : Nat) (h : d ∣ 2 ^ e) : d ∣ 2 ^ 53 := by
  obtain ⟨i, -, rfl⟩ := (Nat.dvd_prime_pow Nat.prime_two).1 h
  have hi : i ≤ 53 := (Nat.pow_le_pow_iff_right (by decide)).1 h53
  exact pow_dvd_pow 2 hi

set_option maxRecDepth 20000 in
/-- A quotient of two integers up to `2 ^ 53` that is not an integer rounds to a double
strictly between the integers around it. -/
theorem roundUnits_between (n d : Nat) (hn53 : n ≤ 2 ^ 53) (hd : 0 < d)
    (hd53 : d ≤ 2 ^ 53) (hnd : ¬ d ∣ n) :
    n / d * 2 ^ 1074 < roundUnits n d ∧ roundUnits n d < (n / d + 1) * 2 ^ 1074 := by
  have hU : (0 : Nat) < 2 ^ 1074 := Nat.two_pow_pos _
  have h53U : (2 : Nat) ^ 53 ≤ 2 ^ 1074 := Nat.pow_le_pow_right (by decide) (by decide)
  have hn : 0 < n := by
    rcases Nat.eq_zero_or_pos n with h | h
    · exact absurd (h ▸ dvd_zero d) hnd
    · exact h
  -- the quotient and the remainder
  have hdm := Nat.div_add_mod n d
  have hr : 0 < n % d := by
    rcases Nat.eq_zero_or_pos (n % d) with h | h
    · exact absurd (Nat.dvd_of_mod_eq_zero h) hnd
    · exact h
  have hr2 := Nat.mod_lt n hd
  -- n < d * 2 ^ 52
  have hnlt : n < d * 2 ^ 52 := by
    have hd2 : 2 ≤ d := by
      rcases Nat.lt_or_ge d 2 with h | h
      · have : d = 1 := by omega
        exact absurd (this ▸ one_dvd n) hnd
      · exact h
    have h1 : 2 * 2 ^ 52 ≤ d * 2 ^ 52 := Nat.mul_le_mul_right _ hd2
    have h2 : (2 : Nat) * 2 ^ 52 = 2 ^ 53 := by rw [← pow_succ']
    rcases Nat.lt_or_ge n (d * 2 ^ 52) with h | h
    · exact h
    · have heq : n = 2 ^ 53 := by omega
      have hd22 : d = 2 := by
        have : d * 2 ^ 52 ≤ 2 * 2 ^ 52 := by omega
        have := Nat.le_of_mul_le_mul_right this (Nat.two_pow_pos _)
        omega
      exact absurd (by rw [heq, hd22]; exact Dvd.intro_left (2 ^ 52) h2) hnd
  unfold roundUnits
  simp only []
  have hF : 0 < n * 2 ^ 1074 / d := by
    apply Nat.div_pos _ hd
    calc d ≤ 2 ^ 53 := hd53
      _ ≤ 2 ^ 1074 := h53U
      _ ≤ n * 2 ^ 1074 := Nat.le_mul_of_pos_left _ hn
  obtain ⟨hlo, -⟩ := log2Fuel_spec (n * 2 ^ 1074 / d) (n * 2 ^ 1074 / d) (le_refl _) hF
  generalize log2Fuel (n * 2 ^ 1074 / d) (n * 2 ^ 1074 / d) = k at hlo
  have hdF : d * (n * 2 ^ 1074 / d) ≤ n * 2 ^ 1074 := Nat.mul_div_le _ _
  have hdk : d * 2 ^ k ≤ n * 2 ^ 1074 := le_trans (Nat.mul_le_mul_left d hlo) hdF
  -- the exponent is below 1074
  have hk : k ≤ 1125 := by
    by_contra hcon
    have h1 : 2 ^ 1126 ≤ 2 ^ k := Nat.pow_le_pow_right (by decide) (by omega)
    have h2 : d * 2 ^ 1126 ≤ d * 2 ^ k := Nat.mul_le_mul_left d h1
    have h3 : n * 2 ^ 1074 < d * 2 ^ 52 * 2 ^ 1074 := Nat.mul_lt_mul_of_pos_right hnlt hU
    have h4 : d * 2 ^ 52 * 2 ^ 1074 = d * 2 ^ 1126 := by rw [Nat.mul_assoc, ← pow_add]
    omega
  obtain ⟨W, hW⟩ : ∃ W, 2 ^ 1074 = 2 ^ (k - 52) * W ∧ W = 2 ^ (1074 - (k - 52)) :=
    ⟨2 ^ (1074 - (k - 52)), by rw [← pow_add]; congr 1; omega, rfl⟩
  obtain ⟨hUW, hWdef⟩ := hW
  have hJ : (0 : Nat) < 2 ^ (k - 52) := Nat.two_pow_pos _
  -- d is below twice the spacing
  have hd2W : d < 2 * W := by
    by_contra hcon
    have hcon : 2 * W ≤ d := Nat.le_of_not_lt hcon
    by_cases hk52 : k ≤ 52
    · have hk0 : k - 52 = 0 := by omega
      rw [hk0] at hWdef
      have : (2 : Nat) ^ 53 ≤ 2 ^ (1074 - 0) := Nat.pow_le_pow_right (by decide) (by omega)
      have hWpos : 0 < W := by rw [hWdef]; exact Nat.two_pow_pos _
      omega
    · -- d * 2 ^ (k - 52) * 2 ^ 52 ≤ n * 2 ^ 1074 ≤ 2 ^ 53 * 2 ^ 1074
      have hk2 : (2 : Nat) ^ k = 2 ^ (k - 52) * 2 ^ 52 := by rw [← pow_add]; congr 1; omega
      have h1 : d * (2 ^ (k - 52) * 2 ^ 52) ≤ n * (2 ^ (k - 52) * W) := by
        rw [← hk2, ← hUW]; exact hdk
      have h2 : d * 2 ^ 52 ≤ n * W := by
        have : 2 ^ (k - 52) * (d * 2 ^ 52) ≤ 2 ^ (k - 52) * (n * W) := by
          calc 2 ^ (k - 52) * (d * 2 ^ 52) = d * (2 ^ (k - 52) * 2 ^ 52) := by ring
            _ ≤ n * (2 ^ (k - 52) * W) := h1
            _ = 2 ^ (k - 52) * (n * W) := by ring
        exact Nat.le_of_mul_le_mul_left this hJ
      -- 2 * W * 2 ^ 52 ≤ d * 2 ^ 52 ≤ n * W ≤ 2 ^ 53 * W
      have h3 : n * W ≤ 2 ^ 53 * W := Nat.mul_le_mul_right W hn53
      have h4 : 2 * W * 2 ^ 52 ≤ d * 2 ^ 52 := Nat.mul_le_mul_right _ hcon
      have h5 : 2 * W * 2 ^ 52 = 2 ^ 53 * W := by
        have : (2 : Nat) ^ 53 = 2 * 2 ^ 52 := by rw [← pow_succ']
        rw [this]; ring
      have hWpos : 0 < W := by rw [hWdef]; exact Nat.two_pow_pos _
      have h6 : n * W = 2 ^ 53 * W := by omega
      have h7 : d * 2 ^ 52 = 2 * W * 2 ^ 52 := by omega
      have hn_eq : n = 2 ^ 53 := Nat.eq_of_mul_eq_mul_right hWpos h6
      have hd_eq : d = 2 * W := Nat.eq_of_mul_eq_mul_right (Nat.two_pow_pos 52) h7
      have hdvd : d ∣ 2 ^ (1074 - (k - 52) + 1) := by
        rw [hd_eq, hWdef, pow_succ']
      exact hnd (hn_eq ▸ pow2_dvd_of_le d hd53 _ hdvd)
  -- the rounding in units of the spacing
  have hD : 0 < d * 2 ^ (k - 52) := Nat.mul_pos hd hJ
  obtain ⟨hb1, hb2⟩ := roundHalfEven_bounds (n * 2 ^ 1074) (d * 2 ^ (k - 52)) hD
  generalize roundHalfEven (n * 2 ^ 1074) (d * 2 ^ (k - 52)) = m at hb1 hb2
  rw [hUW] at hb1 hb2 ⊢
  generalize 2 ^ (k - 52) = J at hJ hb1 hb2 ⊢
  -- cancel J
  have hb1' : 2 * (n * W) ≤ 2 * (m * d) + d := by
    have : J * (2 * (n * W)) ≤ J * (2 * (m * d) + d) := by
      calc J * (2 * (n * W)) = 2 * (n * (J * W)) := by ring
        _ ≤ 2 * (m * (d * J)) + d * J := hb1
        _ = J * (2 * (m * d) + d) := by ring
    exact Nat.le_of_mul_le_mul_left this hJ
  have hb2' : 2 * (m * d) ≤ 2 * (n * W) + d := by
    have : J * (2 * (m * d)) ≤ J * (2 * (n * W) + d) := by
      calc J * (2 * (m * d)) = 2 * (m * (d * J)) := by ring
        _ ≤ 2 * (n * (J * W)) + d * J := hb2
        _ = J * (2 * (n * W) + d) := by ring
    exact Nat.le_of_mul_le_mul_left this hJ
  -- n = d * K + r with 0 < r < d
  generalize n / d = K at hdm ⊢
  generalize n % d = r at hdm hr hr2
  have hnW : n * W = d * K * W + r * W := by rw [← hdm]; ring
  constructor
  · -- K * W < m
    have : K * W < m := by
      by_contra hcon
      have hcon : m ≤ K * W := Nat.le_of_not_lt hcon
      have h1 : m * d ≤ K * W * d := Nat.mul_le_mul_right d hcon
      have h2 : W ≤ r * W := Nat.le_mul_of_pos_left W hr
      have h3 : K * W * d = d * K * W := by ring
      omega
    calc K * (J * W) = K * W * J := by ring
      _ < m * J := Nat.mul_lt_mul_of_pos_right this hJ
  · have : m < (K + 1) * W := by
      by_contra hcon
      have hcon : (K + 1) * W ≤ m := Nat.le_of_not_lt hcon
      have h1 : (K + 1) * W * d ≤ m * d := Nat.mul_le_mul_right d hcon
      have h2 : r * W + W ≤ d * W := by
        calc r * W + W = (r + 1) * W := by ring
          _ ≤ d * W := Nat.mul_le_mul_right W hr2
      have h3 : (K + 1) * W * d = d * K * W + d * W := by ring
      omega
    calc m * J < (K + 1) * W * J := Nat.mul_lt_mul_of_pos_right this hJ
      _ = (K + 1) * (J * W) := by ring

/-- A quotient `n / d` of naturals up to `2 ^ 53`, not an integer: the double it rounds
to lies strictly between the integers around it. -/
theorem mkRat_roundUnits_between (n d : Nat) (hn53 : n ≤ 2 ^ 53) (hd : 0 < d)
    (hd53 : d ≤ 2 ^ 53) (hnd : ¬ d ∣ n) :
    ∃ K : Nat, (K : ℚ) < (n : ℚ) / (d : ℚ) ∧ (n : ℚ) / (d : ℚ) < (K : ℚ) + 1 ∧
      (K : ℚ) < mkRat (roundUnits n d) (2 ^ 1074) ∧
      mkRat (roundUnits n d) (2 ^ 1074) < (K : ℚ) + 1 ∧
      ¬ 2 ^ 2098 ≤ roundUnits n d ∧ roundUnits n d ≠ 0 := by
  obtain ⟨hlo, hhi⟩ := roundUnits_between n d hn53 hd hd53 hnd
  have hK : n / d ≤ 2 ^ 53 := le_trans (Nat.div_le_self _ _) hn53
  have hdm := Nat.div_add_mod n d
  have hr : 0 < n % d := by
    rcases Nat.eq_zero_or_pos (n % d) with h | h
    · exact absurd (Nat.dvd_of_mod_eq_zero h) hnd
    · exact h
  have hr2 := Nat.mod_lt n hd
  generalize n / d = K at hlo hhi hK hdm
  generalize n % d = r at hdm hr hr2
  generalize roundUnits n d = M at hlo hhi
  have hM1 : ¬ 2 ^ 2098 ≤ M := by
    have h1 : (K + 1) * 2 ^ 1074 ≤ (2 ^ 53 + 1) * 2 ^ 1074 :=
      Nat.mul_le_mul_right _ (Nat.succ_le_succ hK)
    have h2 : ((2 : Nat) ^ 53 + 1) * 2 ^ 1074 ≤ 2 ^ 54 * 2 ^ 1074 :=
      Nat.mul_le_mul_right _ (by norm_num)
    have h3 : (2 : Nat) ^ 54 * 2 ^ 1074 < 2 ^ 2098 := by
      rw [← pow_add]; exact Nat.pow_lt_pow_right (by decide) (by norm_num)
    generalize (2 : Nat) ^ 2098 = A at h3 ⊢
    generalize (2 : Nat) ^ 54 * 2 ^ 1074 = B at h2 h3
    generalize ((2 : Nat) ^ 53 + 1) * 2 ^ 1074 = C at h1 h2
    generalize (K + 1) * 2 ^ 1074 = E at h1 hhi
    omega
  have hM0 : M ≠ 0 := by
    rintro rfl
    exact Nat.not_lt_zero _ hlo
  generalize (2 : Nat) ^ 1074 = U at hlo hhi ⊢
  have hv : mkRat (M : Int) U = (M : ℚ) / (U : ℚ) := by
    rw [Rat.mkRat_eq_div, Int.cast_natCast]
  have hU : 0 < U := by
    rcases Nat.eq_zero_or_pos U with h | h
    · subst h; simp at hhi
    · exact h
  have hUq : (0 : ℚ) < (U : ℚ) := by exact_mod_cast hU
  have hdq : (0 : ℚ) < (d : ℚ) := by exact_mod_cast hd
  refine ⟨K, ?_, ?_, ?_, ?_, hM1, hM0⟩
  · rw [lt_div_iff₀ hdq]
    have : K * d < n := by
      have : K * d = d * K := Nat.mul_comm _ _
      omega
    exact_mod_cast this
  · rw [div_lt_iff₀ hdq]
    have : n < (K + 1) * d := by
      have : (K + 1) * d = d * K + d := by ring
      omega
    exact_mod_cast this
  · rw [hv, lt_div_iff₀ hUq]; exact_mod_cast hlo
  · rw [hv, div_lt_iff₀ hUq]; exact_mod_cast hhi

/-- A positive rational whose numerator and denominator are at most `2 ^ 53` rounds to a
positive double with the same ceiling and the same floor, and its negative to the
negative of that double. -/
theorem toDouble_quotient (x : ℚ) (hx : 0 < x) (hn53 : x.num.natAbs ≤ 2 ^ 53)
    (hd53 : x.den ≤ 2 ^ 53) :
    ∃ v : ℚ, toDouble x = .fin v ∧ toDouble (-x) = .fin (-v) ∧ 0 < v ∧
      Int.ceil v = Int.ceil x ∧ Int.floor v = Int.floor x := by
  have hnum : 0 < x.num := Rat.num_pos.2 hx
  have hnn : (x.num.natAbs : Int) = x.num := Int.natAbs_of_nonneg hnum.le
  have hxeq : x = (x.num.natAbs : ℚ) / (x.den : ℚ) := by
    have h := (Rat.num_div_den x).symm
    rw [← hnn] at h
    rw [Int.cast_natCast] at h
    exact h
  have hdpos : 0 < x.den := x.den_pos
  have hxne : x ≠ 0 := hx.ne'
  have hneg : -x < 0 := by linarith
  have hne2 : -x ≠ 0 := by linarith
  by_cases hdvd : x.den ∣ x.num.natAbs
  · -- an integer
    have hd1 : x.den = 1 := Nat.Coprime.eq_one_of_dvd (Nat.Coprime.symm x.reduced) hdvd
    have hxn : x = (x.num.natAbs : ℚ) := by
      rw [hd1] at hxeq; rw [Nat.cast_one, div_one] at hxeq; exact hxeq
    have hpos : 0 < x.num.natAbs := Int.natAbs_pos.2 hnum.ne'
    obtain ⟨h1, h2⟩ := toDouble_natCast x.num.natAbs hn53
    have h2 := h2 hpos
    rw [← hxn] at h1 h2
    exact ⟨x, h1, h2, hx, rfl, rfl⟩
  · obtain ⟨K, hxlo, hxhi, hvlo, hvhi, hM1, hM0⟩ :=
      mkRat_roundUnits_between x.num.natAbs x.den hn53 hdpos hd53 hdvd
    rw [← hxeq] at hxlo hxhi
    have hvpos : (0 : ℚ) < mkRat (roundUnits x.num.natAbs x.den) (2 ^ 1074) :=
      lt_of_le_of_lt (Nat.cast_nonneg K) hvlo
    refine ⟨mkRat (roundUnits x.num.natAbs x.den) (2 ^ 1074), ?_, ?_, hvpos, ?_, ?_⟩
    · unfold toDouble
      simp only [hxne, if_false, hM1, hM0, not_lt.2 hx.le]
    · unfold toDouble
      simp only [hne2, if_false, Rat.neg_num, Rat.neg_den, Int.natAbs_neg, hM1, hM0, hneg,
        if_true]
    · generalize mkRat (roundUnits x.num.natAbs x.den) (2 ^ 1074) = v at hvlo hvhi
      have e1 : Int.ceil v = (K : Int) + 1 := by
        rw [Int.ceil_eq_iff]; push_cast; constructor <;> linarith
      have e2 : Int.ceil x = (K : Int) + 1 := by
        rw [Int.ceil_eq_iff]; push_cast; constructor <;> linarith
      rw [e1, e2]
    · generalize mkRat (roundUnits x.num.natAbs x.den) (2 ^ 1074) = v at hvlo hvhi
      have e1 : Int.floor v = (K : Int) := by
        rw [Int.floor_eq_iff]; push_cast; constructor <;> linarith
      have e2 : Int.floor x = (K : Int) := by
        rw [Int.floor_eq_iff]; push_cast; constructor <;> linarith
      rw [e1, e2]

/-- The quotient of two naturals has numerator and denominator at most these. -/
theorem natCast_div_bounds (c l : Nat) (hl : 0 < l) :
    ((c : ℚ) / (l : ℚ)).num.natAbs ≤ c ∧ ((c : ℚ) / (l : ℚ)).den ≤ l := by
  rw [Rat.natCast_div_eq_divInt]
  have hl0 : (l : Int) ≠ 0 := by exact_mod_cast hl.ne'
  constructor
  · by_cases hc : c = 0
    · subst hc; simp
    · have h := Rat.num_dvd (c : Int) hl0
      have h2 : (Rat.divInt (c : Int) (l : Int)).num.natAbs ∣ c := by
        have := Int.natAbs_dvd_natAbs.2 h
        simpa using this
      exact Nat.le_of_dvd (Nat.pos_of_ne_zero hc) h2
  · have h := Rat.den_dvd (c : Int) (l : Int)
    have h2 : (Rat.divInt (c : Int) (l : Int)).den ∣ l := by exact_mod_cast h
    exact Nat.le_of_dvd hl h2

theorem sub_fin (p q : ℚ) : JSNumber.fin p - JSNumber.fin q = toDouble (p - q) := rfl

theorem mul_fin (p q : ℚ) : JSNumber.fin p * JSNumber.fin q =
    if p = 0 ∨ q = 0 then signedZero (decide (p < 0) != decide (q < 0))
    else toDouble (p * q) := by
  show JSNumber.mul _ _ = _
  simp [JSNumber.mul, JSNumber.isZero, JSNumber.signBit, JSNumber.toRat]

theorem div_fin (p q : ℚ) : JSNumber.fin p / JSNumber.fin q =
    if q = 0 then (if p = 0 then .nan else .inf (decide (p < 0) != decide (q < 0)))
    else if p = 0 then signedZero (decide (p < 0) != decide (q < 0))
    else toDouble (p / q) := by
  show JSNumber.div _ _ = _
  simp [JSNumber.div, JSNumber.isZero, JSNumber.signBit, JSNumber.toRat]

/-- The offset `(page - 1) * limit` is exact while the numbers stay up to `2 ^ 53`. -/
theorem offset_exact (P L : Nat) (hP : 0 < P) (hP53 : P ≤ 2 ^ 53) (hL : 0 < L)
    (hPL : (P - 1) * L ≤ 2 ^ 53) :
    (JSNumber.fin (P : ℚ) - JSNumber.fin 1) * JSNumber.fin (L : ℚ) =
      .fin (((P - 1) * L : Nat) : ℚ) := by
  have h1 : (P : ℚ) - 1 = ((P - 1 : Nat) : ℚ) := by
    rw [Nat.cast_sub hP]; simp
  have hP1 : P - 1 ≤ 2 ^ 53 := le_trans (Nat.sub_le _ _) hP53
  rw [sub_fin, h1, (toDouble_natCast (P - 1) hP1).1, mul_fin]
  have hLq : (L : ℚ) ≠ 0 := by exact_mod_cast (Nat.pos_iff_ne_zero.1 hL)
  have hLn : ¬ (L : ℚ) < 0 := not_lt.2 (Nat.cast_nonneg L)
  have hPn : ¬ ((P - 1 : Nat) : ℚ) < 0 := not_lt.2 (Nat.cast_nonneg _)
  by_cases h0 : P - 1 = 0
  · simp [h0, signedZero]
  · have hq : ((P - 1 : Nat) : ℚ) ≠ 0 := by exact_mod_cast h0
    simp only [hq, hLq, or_self, if_false]
    have := (toDouble_natCast ((P - 1) * L) hPL).1
    rw [Nat.cast_mul] at this
    rw [this, Nat.cast_mul]

/-- The page count `Math.ceil(count / limit)` for a positive limit, numbers up to
`2 ^ 53`: the exact ceiling of the quotient. -/
theorem ceil_div_pos (c l : Nat) (hc53 : c ≤ 2 ^ 53) (hl : 0 < l) (hl53 : l ≤ 2 ^ 53) :
    Math.ceil (JSNumber.fin (c : ℚ) / JSNumber.fin (l : ℚ)) =
      .fin (Int.ceil ((c : ℚ) / (l : ℚ))) := by
  have hlq : (l : ℚ) ≠ 0 := by exact_mod_cast (Nat.pos_iff_ne_zero.1 hl)
  have hlpos : (0 : ℚ) < (l : ℚ) := by exact_mod_cast hl
  rw [div_fin]
  simp only [hlq, if_false]
  by_cases hc : c = 0
  · subst hc
    simp [signedZero, not_lt.2 hlpos.le, Math.ceil]
  · have hcq : (c : ℚ) ≠ 0 := by exact_mod_cast hc
    have hcpos : (0 : ℚ) < (c : ℚ) := by exact_mod_cast Nat.pos_of_ne_zero hc
    simp only [hcq, if_false]
    obtain ⟨hb1, hb2⟩ := natCast_div_bounds c l hl
    obtain ⟨v, hv, -, hvpos, hceil, -⟩ := toDouble_quotient ((c : ℚ) / (l : ℚ))
      (div_pos hcpos hlpos) (le_trans hb1 hc53) (le_trans hb2 hl53)
    rw [hv]
    simp only [Math.ceil, not_lt.2 hvpos.le, and_false, if_false, hceil]

/-- The page count `Math.ceil(count / limit)` for a negative limit, numbers up to
`2 ^ 53`: the exact ceiling of the quotient, as the negative zero when that is 0. -/
theorem ceil_div_neg (c l : Nat) (hc53 : c ≤ 2 ^ 53) (hl : 0 < l) (hl53 : l ≤ 2 ^ 53) :
    Math.ceil (JSNumber.fin (c : ℚ) / JSNumber.fin (-(l : ℚ))) =
      if Int.ceil ((c : ℚ) / (-(l : ℚ))) = 0 then .negZero
      else .fin (Int.ceil ((c : ℚ) / (-(l : ℚ)))) := by
  have hlpos : (0 : ℚ) < (l : ℚ) := by exact_mod_cast hl
  have hlq : -(l : ℚ) ≠ 0 := by linarith
  have hlneg : -(l : ℚ) < 0 := by linarith
  rw [div_fin]
  simp only [hlq, if_false]
  by_cases hc : c = 0
  · subst hc
    simp [signedZero, hlpos, Math.ceil]
  · have hcq : (c : ℚ) ≠ 0 := by exact_mod_cast hc
    have hcpos : (0 : ℚ) < (c : ℚ) := by exact_mod_cast Nat.pos_of_ne_zero hc
    simp only [hcq, if_false]
    obtain ⟨hb1, hb2⟩ := natCast_div_bounds c l hl
    obtain ⟨v, -, hv, hvpos, -, hfloor⟩ := toDouble_quotient ((c : ℚ) / (l : ℚ))
      (div_pos hcpos hlpos) (le_trans hb1 hc53) (le_trans hb2 hl53)
    rw [div_neg, hv]
    have hvneg : -v < 0 := by linarith
    have e : Int.ceil (-v) = Int.ceil (-((c : ℚ) / (l : ℚ))) := by
      rw [Int.ceil_neg, Int.ceil_neg, hfloor]
    simp only [Math.ceil, hvneg, and_true, e]

theorem roundUnits_int_ne_zero (n : Nat) (hn : 0 < n) : roundUnits n 1 ≠ 0 := by
  unfold roundUnits
  simp only [Nat.div_one, Nat.one_mul]
  have hN : 0 < n * 2 ^ 1074 := Nat.mul_pos hn (Nat.two_pow_pos _)
  obtain ⟨hlo, -⟩ := log2Fuel_spec (n * 2 ^ 1074) (n * 2 ^ 1074) (le_refl _) hN
  generalize log2Fuel (n * 2 ^ 1074) (n * 2 ^ 1074) = k at hlo
  have hJ : (0 : Nat) < 2 ^ (k - 52) := Nat.two_pow_pos _
  have hJk : 2 ^ (k - 52) ≤ 2 ^ k := Nat.pow_le_pow_right (by decide) (Nat.sub_le _ _)
  obtain ⟨hb1, -⟩ := roundHalfEven_bounds (n * 2 ^ 1074) (2 ^ (k - 52)) hJ
  generalize n * 2 ^ 1074 = N at hN hlo hb1 ⊢
  intro h0
  rcases Nat.mul_eq_zero.1 h0 with h | h
  · rw [h] at hb1; omega
  · omega

/-- The number value of a non-zero integer is truthy; that of zero is falsy. -/
theorem integerNumber_toBoolean (neg : Bool) (n : Nat) :
    (integerNumber neg n).toBoolean = decide (n ≠ 0) := by
  by_cases hn : n = 0
  · subst hn; cases neg <;> rfl
  · have hpos : 0 < n := Nat.pos_of_ne_zero hn
    have hq : (n : ℚ) ≠ 0 := by exact_mod_cast hn
    have hq2 : -(n : ℚ) ≠ 0 := neg_ne_zero.2 hq
    have hM := roundUnits_int_ne_zero n hpos
    have hv : mkRat (roundUnits n 1) (2 ^ 1074) ≠ 0 := by
      rw [Ne, Rat.mkRat_eq_zero (Nat.pos_iff_ne_zero.1 (Nat.two_pow_pos _))]
      exact_mod_cast hM
    simp only [integerNumber, hn, if_false, decide_not, decide_False, Bool.not_false]
    cases neg
    · simp only [Bool.false_eq_true, if_false, toDouble, hq, Rat.num_natCast, Int.natAbs_ofNat,
        Rat.den_natCast, hM]
      split
      · rfl
      · split <;> simp [JSNumber.toBoolean, hv]
    · simp only [if_true, toDouble, hq2, if_false, Rat.neg_num, Rat.neg_den, Rat.num_natCast,
        Int.natAbs_neg, Int.natAbs_ofNat, Rat.den_natCast, hM]
      split
      · rfl
      · split <;> simp [JSNumber.toBoolean, hv]

/-- The number value of a non-zero integer up to `2 ^ 53` is that integer. -/
theorem integerNumber_exact (n : Nat) (hn : 0 < n) (h53 : n ≤ 2 ^ 53) :
    integerNumber false n = .fin (n : ℚ) ∧ integerNumber true n = .fin (-(n : ℚ)) := by
  obtain ⟨h1, h2⟩ := toDouble_natCast n h53
  have hn0 : n ≠ 0 := Nat.pos_iff_ne_zero.1 hn
  constructor
  · simp only [integerNumber, hn0, if_false, Bool.false_eq_true, h1]
  · simp only [integerNumber, hn0, if_false, if_true, h2 hn]

/-- With no count at all the page count is a zero, whatever the limit. -/
theorem ceil_zero_div (limit : JSNumber) (h : limit.toBoolean = true) :
    (Math.ceil (JSNumber.fin 0 / limit)).isZero = true := by
  cases limit with
  | nan => simp [JSNumber.toBoolean] at h
  | negZero => simp [JSNumber.toBoolean] at h
  | inf neg =>
    show (Math.ceil (JSNumber.div _ _)).isZero = true
    cases neg <;> simp [JSNumber.div, JSNumber.signBit, signedZero, Math.ceil, JSNumber.isZero]
  | fin q =>
    have hq : q ≠ 0 := by simpa [JSNumber.toBoolean] using h
    rw [div_fin]
    simp only [hq, if_false, if_true]
    by_cases hneg : q < 0 <;> simp [signedZero, hneg, Math.ceil, JSNumber.isZero]
/-! ## Shape of the handlers -/

theorem includes_course (populate : Option String) :
    (if populate = some "students" then
        (if populate = some "teacher" then ([] : List Model) ++ [Model.Teacher] else []) ++
          [Model.Student]
      else (if populate = some "teacher" then ([] : List Model) ++ [Model.Teacher] else [])) =
      expectedIncludes .Course populate := by
  cases populate with
  | none => simp [expectedIncludes]
  | some p =>
    by_cases h1 : p = "teacher"
    · subst h1; decide
    · by_cases h2 : p = "students"
      · subst h2; decide
      · have h1b : (p == "teacher") = false := by simpa using h1
        have h2b : (p == "students") = false := by simpa using h2
        simp [expectedIncludes, populateEnum, List.lookup, h1, h2, h1b, h2b]

theorem includes_courses (m : Model) (hm : m ≠ .Course) (populate : Option String) :
    (if populate = some "courses" then ([] : List Model) ++ [Model.Course] else []) =
      expectedIncludes m populate := by
  have hp : populateEnum m = [("courses", .Course)] := by
    cases m <;> first | rfl | exact absurd rfl hm
  cases populate with
  | none => simp [expectedIncludes]
  | some p =>
    by_cases h1 : p = "courses"
    · subst h1; simp [expectedIncludes, hp, List.lookup]
    · have h1b : (p == "courses") = false := by simpa using h1
      simp [expectedIncludes, hp, List.lookup, h1, h1b]

/-- The query descriptor a list handler builds from the query string. -/
theorem getAll_shape (m : Model) (db : Db) (req : Request) :
    handler m .getAll db req =
      match (db.store m).findAndCountAll
          ⟨orElse (parseInt req.query.limit) (.fin 10),
            (orElse (parseInt req.query.page) (.fin 1) - .fin 1) * orElse (parseInt req.query.limit) (.fin 10),
            [("createdAt", if req.query.sort = some "asc" then "ASC" else "DESC")],
            expectedIncludes m req.query.populate⟩ with
      | .ok (count, rows) =>
        ⟨[.findAndCountAll m
            ⟨orElse (parseInt req.query.limit) (.fin 10),
              (orElse (parseInt req.query.page) (.fin 1) - .fin 1) * orElse (parseInt req.query.limit) (.fin 10),
              [("createdAt", if req.query.sort = some "asc" then "ASC" else "DESC")],
              expectedIncludes m req.query.populate⟩],
          ⟨200, .envelope count (orElse (parseInt req.query.page) (.fin 1))
            (Math.ceil (count / orElse (parseInt req.query.limit) (.fin 10))) rows⟩⟩
      | .error err =>
        ⟨[.findAndCountAll m
            ⟨orElse (parseInt req.query.limit) (.fin 10),
              (orElse (parseInt req.query.page) (.fin 1) - .fin 1) * orElse (parseInt req.query.limit) (.fin 10),
              [("createdAt", if req.query.sort = some "asc" then "ASC" else "DESC")],
              expectedIncludes m req.query.populate⟩],
          ⟨500, .error err.message⟩⟩ := by
  cases m
  · simp only [handler, getAllCourses, Db.store, includes_course]
  · simp only [handler, getAllStudents, Db.store, includes_courses .Student (by decide)]
  · simp only [handler, getAllTeachers, Db.store, includes_courses .Teacher (by decide)]


/-- What a list handler does: one `findAndCountAll` with the descriptor built from the
query string, then the envelope on success and status 500 on failure. -/
theorem getAll_spec (m : Model) (db : Db) (req : Request) :
    ∃ options : FindOptions,
      (handler m .getAll db req).calls = [.findAndCountAll m options] ∧
      options.limit = orElse (parseInt req.query.limit) (.fin 10) ∧
      options.offset = (orElse (parseInt req.query.page) (.fin 1) - .fin 1) * options.limit ∧
      options.order = [("createdAt", if req.query.sort = some "asc" then "ASC" else "DESC")] ∧
      options.includes = expectedIncludes m req.query.populate ∧
      (∀ count rows, (db.store m).findAndCountAll options = .ok (count, rows) →
        (handler m .getAll db req).response =
          ⟨200, .envelope count (orElse (parseInt req.query.page) (.fin 1))
            (Math.ceil (count / options.limit)) rows⟩) ∧
      (∀ err, (db.store m).findAndCountAll options = .error err →
        (handler m .getAll db req).response = ⟨500, .error err.message⟩) := by
  refine ⟨⟨orElse (parseInt req.query.limit) (.fin 10),
    (orElse (parseInt req.query.page) (.fin 1) - .fin 1) *
      orElse (parseInt req.query.limit) (.fin 10),
    [("createdAt", if req.query.sort = some "asc" then "ASC" else "DESC")],
    expectedIncludes m req.query.populate⟩, ?_, rfl, rfl, rfl, rfl, ?_, ?_⟩
  · rw [getAll_shape]; split <;> rfl
  · intro count rows h; rw [getAll_shape, h]
  · intro err h; rw [getAll_shape, h]

/-- The value of `parseInt(raw) || d` on the raw values of the claims: `d` for an
absent value, for the text `0` and for text without a decimal digit; the number read
whenever it is truthy; for the decimal text of a positive `n` the double nearest to `n`,
which is `n` itself up to `2 ^ 53`, and the negative of it after a minus sign. -/
theorem orElse_parseInt (raw : Option String) (d : JSNumber) :
    (raw = none → orElse (parseInt raw) d = d) ∧
    (raw = some "0" → orElse (parseInt raw) d = d) ∧
    (∀ s : String, raw = some s → (∀ c ∈ s.data, ¬ isDec c) → orElse (parseInt raw) d = d) ∧
    (∀ n : Nat, 0 < n → n ≤ 2 ^ 53 → raw = some (toString n) →
      orElse (parseInt raw) d = .fin (n : ℚ)) ∧
    (∀ n : Nat, 0 < n → raw = some (toString n) →
      orElse (parseInt raw) d = toDouble (n : ℚ)) ∧
    (∀ n : Nat, 0 < n → n ≤ 2 ^ 53 → raw = some ("-" ++ toString n) →
      orElse (parseInt raw) d = .fin (-(n : ℚ))) ∧
    ((parseInt raw).toBoolean = true → orElse (parseInt raw) d = parseInt raw) ∧
    ((parseInt raw).toBoolean = false → orElse (parseInt raw) d = d) := by
  have htrue : (parseInt raw).toBoolean = true → orElse (parseInt raw) d = parseInt raw := by
    intro h; simp [orElse, h]
  have hfalse : (parseInt raw).toBoolean = false → orElse (parseInt raw) d = d := by
    intro h; simp [orElse, h]
  refine ⟨?_, ?_, ?_, ?_, ?_, ?_, htrue, hfalse⟩
  · rintro rfl; exact hfalse (by decide)
  · rintro rfl; exact hfalse (by decide)
  · intro s h hs; subst h
    apply hfalse; rw [parseInt_no_digit s hs]; rfl
  · intro n hn h53 h; subst h
    have hb := integerNumber_toBoolean false n
    rw [← (parseInt_toString n).1] at hb
    rw [htrue (by rw [hb]; simpa using Nat.pos_iff_ne_zero.1 hn), (parseInt_toString n).1]
    exact (integerNumber_exact n hn h53).1
  · intro n hn h; subst h
    have hb := integerNumber_toBoolean false n
    rw [← (parseInt_toString n).1] at hb
    rw [htrue (by rw [hb]; simpa using Nat.pos_iff_ne_zero.1 hn), (parseInt_toString n).1]
    simp [integerNumber, Nat.pos_iff_ne_zero.1 hn]
  · intro n hn h53 h; subst h
    have hb := integerNumber_toBoolean true n
    rw [← (parseInt_toString n).2] at hb
    rw [htrue (by rw [hb]; simpa using Nat.pos_iff_ne_zero.1 hn), (parseInt_toString n).2]
    exact (integerNumber_exact n hn h53).2

theorem orElse_toBoolean (x d : JSNumber) (hd : d.toBoolean = true) :
    (orElse x d).toBoolean = true := by
  unfold orElse
  split
  · assumption
  · exact hd

/-! ## Claims -/

/-- C1 (amended): in every list handler the limit passed to the store is 10 when the
raw `limit` is absent, is the text `0`, or has no decimal digit at all; it is `n` when
the raw value is the decimal text of a positive integer `n` up to `2 ^ 53`, and for
every positive `n` the number value of `n` (the nearest double, `Infinity` from
`2 ^ 1024` on).  It is not forced to be positive: whenever `parseInt` reads a truthy
number from the raw value, that number is the limit, so the decimal text of `n` after a
minus sign gives `-n`. -/
theorem limit_normalised (m : Model) (db : Db) (req : Request) :
    ∃ options : FindOptions,
      (handler m .getAll db req).calls = [.findAndCountAll m options] ∧
      (req.query.limit = none → options.limit = .fin 10) ∧
      (req.query.limit = some "0" → options.limit = .fin 10) ∧
      (∀ s : String, req.query.limit = some s → (∀ c ∈ s.data, ¬ isDec c) →
        options.limit = .fin 10) ∧
      (∀ n : Nat, 0 < n → n ≤ 2 ^ 53 → req.query.limit = some (toString n) →
        options.limit = .fin (n : ℚ)) ∧
      (∀ n : Nat, 0 < n → req.query.limit = some (toString n) →
        options.limit = toDouble (n : ℚ)) ∧
      (∀ n : Nat, 0 < n → n ≤ 2 ^ 53 → req.query.limit = some ("-" ++ toString n) →
        options.limit = .fin (-(n : ℚ))) ∧
      ((parseInt req.query.limit).toBoolean = true →
        options.limit = parseInt req.query.limit) ∧
      ((parseInt req.query.limit).toBoolean = false → options.limit = .fin 10) := by
  obtain ⟨options, hc, hl, -⟩ := getAll_spec m db req
  refine ⟨options, hc, ?_⟩
  rw [hl]
  exact orElse_parseInt req.query.limit (.fin 10)

/-- C2 (amended): in every list handler the page used for the offset and echoed in the
envelope is 1 when the raw `page` is absent, is the text `0`, or has no decimal digit
at all; it is `n` when the raw value is the decimal text of a positive integer `n` up
to `2 ^ 53`, and for every positive `n` the number value of `n` (the nearest double,
`Infinity` from `2 ^ 1024` on).  It is not forced to be positive: whenever `parseInt`
reads a truthy number from the raw value, that number is the page, so the decimal text
of `n` after a minus sign gives `-n`.  The offset is the double product
`(page - 1) * limit`. -/
theorem page_normalised (m : Model) (db : Db) (req : Request) :
    ∃ (options : FindOptions) (page : JSNumber),
      (handler m .getAll db req).calls = [.findAndCountAll m options] ∧
      options.offset = (page - .fin 1) * options.limit ∧
      (∀ count rows, (db.store m).findAndCountAll options = .ok (count, rows) →
        ∃ totalPages, (handler m .getAll db req).response =
          ⟨200, .envelope count page totalPages rows⟩) ∧
      (req.query.page = none → page = .fin 1) ∧
      (req.query.page = some "0" → page = .fin 1) ∧
      (∀ s : String, req.query.page = some s → (∀ c ∈ s.data, ¬ isDec c) →
        page = .fin 1) ∧
      (∀ n : Nat, 0 < n → n ≤ 2 ^ 53 → req.query.page = some (toString n) →
        page = .fin (n : ℚ)) ∧
      (∀ n : Nat, 0 < n → req.query.page = some (toString n) → page = toDouble (n : ℚ)) ∧
      (∀ n : Nat, 0 < n → n ≤ 2 ^ 53 → req.query.page = some ("-" ++ toString n) →
        page = .fin (-(n : ℚ))) ∧
      ((parseInt req.query.page).toBoolean = true → page = parseInt req.query.page) ∧
      ((parseInt req.query.page).toBoolean = false → page = .fin 1) := by
  obtain ⟨options, hc, -, ho, -, -, hok, -⟩ := getAll_spec m db req
  exact ⟨options, orElse (parseInt req.query.page) (.fin 1), hc, ho,
    fun count rows h => ⟨_, hok count rows h⟩, orElse_parseInt req.query.page (.fin 1)⟩

/-- C1 (witness): the raw limit `7` reaches the store as 7. -/
theorem limit_normalised_witness :
    ∃ options : FindOptions,
      (handler .Course .getAll (memoryDb [] [] []) ⟨⟨""⟩, ⟨some "7", none, none, none⟩, []⟩).calls
        = [.findAndCountAll .Course options] ∧ options.limit = .fin ((7 : Nat) : ℚ) := by
  obtain ⟨options, hc, -, -, -, hpos, -⟩ :=
    limit_normalised .Course (memoryDb [] [] []) ⟨⟨""⟩, ⟨some "7", none, none, none⟩, []⟩
  exact ⟨options, hc, hpos 7 (by decide) (by norm_num) rfl⟩

set_option maxRecDepth 100000 in
/-- C1 (counterexample): the raw limits `-5` and `5abc` are not the decimal text of a
positive integer, and the limit passed to the store is -5 and 5, not 10; the raw limit
`9007199254740993` is the decimal text of a positive integer and the limit passed to the
store is 9007199254740992. -/
theorem negative_limit_reaches_store :
    (getAllCourses (memoryDb [] [] []) ⟨⟨""⟩, ⟨some "-5", none, none, none⟩, []⟩).calls
      = [.findAndCountAll .Course ⟨.fin (-5), .negZero, [("createdAt", "DESC")], []⟩] ∧
    (getAllCourses (memoryDb [] [] []) ⟨⟨""⟩, ⟨some "5abc", none, none, none⟩, []⟩).calls
      = [.findAndCountAll .Course ⟨.fin 5, .fin 0, [("createdAt", "DESC")], []⟩] ∧
    (getAllCourses (memoryDb [] [] [])
        ⟨⟨""⟩, ⟨some "9007199254740993", none, none, none⟩, []⟩).calls
      = [.findAndCountAll .Course
          ⟨.fin 9007199254740992, .fin 0, [("createdAt", "DESC")], []⟩] ∧
    JSNumber.fin (-5) ≠ .fin 10 ∧ JSNumber.fin 5 ≠ .fin 10 ∧
    JSNumber.fin 9007199254740992 ≠ .fin 9007199254740993 := by
  decide!

/-- C2 (witness): the raw page `3` is the page of the offset and of the envelope. -/
theorem page_normalised_witness :
    ∃ (options : FindOptions) (page : JSNumber),
      (handler .Teacher .getAll (fixedDb (.fin 0) [] none)
          ⟨⟨""⟩, ⟨none, some "3", none, none⟩, []⟩).calls
        = [.findAndCountAll .Teacher options] ∧
      options.offset = (page - .fin 1) * options.limit ∧
      (∃ totalPages, (handler .Teacher .getAll (fixedDb (.fin 0) [] none)
          ⟨⟨""⟩, ⟨none, some "3", none, none⟩, []⟩).response =
        ⟨200, .envelope (.fin 0) page totalPages []⟩) ∧ page = .fin ((3 : Nat) : ℚ) := by
  obtain ⟨options, page, hc, ho, hok, -, -, -, hpos, -⟩ :=
    page_normalised .Teacher (fixedDb (.fin 0) [] none)
      ⟨⟨""⟩, ⟨none, some "3", none, none⟩, []⟩
  exact ⟨options, page, hc, ho, hok (.fin 0) [] rfl, hpos 3 (by decide) (by norm_num) rfl⟩

set_option maxRecDepth 100000 in
/-- C2 (counterexample): the raw pages `-3` and `2nd` are not the decimal text of a
positive integer; the page is -3 (offset -40) and 2 (offset 10), not 1 (offset 0); the
raw page `9007199254740993` is echoed as 9007199254740992. -/
theorem negative_page_reaches_offset :
    getAllCourses (fixedDb (.fin 0) [] none) ⟨⟨""⟩, ⟨none, some "-3", none, none⟩, []⟩ =
      ⟨[.findAndCountAll .Course ⟨.fin 10, .fin (-40), [("createdAt", "DESC")], []⟩],
        ⟨200, .envelope (.fin 0) (.fin (-3)) (.fin 0) []⟩⟩ ∧
    getAllCourses (fixedDb (.fin 0) [] none) ⟨⟨""⟩, ⟨none, some "2nd", none, none⟩, []⟩ =
      ⟨[.findAndCountAll .Course ⟨.fin 10, .fin 10, [("createdAt", "DESC")], []⟩],
        ⟨200, .envelope (.fin 0) (.fin 2) (.fin 0) []⟩⟩ ∧
    getAllCourses (fixedDb (.fin 0) [] none)
        ⟨⟨""⟩, ⟨some "1", some "9007199254740993", none, none⟩, []⟩ =
      ⟨[.findAndCountAll .Course
          ⟨.fin 1, .fin 9007199254740991, [("createdAt", "DESC")], []⟩],
        ⟨200, .envelope (.fin 0) (.fin 9007199254740992) (.fin 0) []⟩⟩ := by
  decide!

theorem toNat_natCast (L : Nat) : (JSNumber.fin (L : ℚ)).toNat? = some L := by
  simp [JSNumber.toNat?]

/-- The reference store never returns more rows than a natural limit. -/
theorem memoryStore_atMostLimit (coll : List Record) : AtMostLimit (memoryStore coll) := by
  intro options L count rows hL h
  simp only [memoryStore, hL, toNat_natCast] at h
  split at h
  · rename_i limit offset h1 h2
    injection h1 with h1
    subst h1
    injection h with h
    injection h with _ hrows
    rw [← hrows, List.length_take]
    exact Nat.min_le_left _ _
  · cases h

/-- C3 (amended): in every list handler, when the raw `limit` and `page` are the
decimal texts of positive integers `L` and `P` with `L`, `P` and `(P - 1) * L` at most
`2 ^ 53`, the descriptor sent to the store has limit `L` and offset `(P - 1) * L`, which
is not negative, and under a store that returns at most `limit` rows the envelope
carries the store rows, at most `L` of them.  On twelve students,
`page=2&limit=5&sort=asc` asks for offset 5 and answers with the students 6 to 10,
oldest first, `total = 12` and `totalPages = 3`. -/
theorem page_window :
    (∀ (m : Model) (db : Db) (req : Request) (L P : Nat), 0 < L → 0 < P →
      L ≤ 2 ^ 53 → P ≤ 2 ^ 53 → (P - 1) * L ≤ 2 ^ 53 →
      req.query.limit = some (toString L) → req.query.page = some (toString P) →
      ∃ options : FindOptions,
        (handler m .getAll db req).calls = [.findAndCountAll m options] ∧
        options.limit = .fin (L : ℚ) ∧ options.offset = .fin (((P - 1) * L : Nat) : ℚ) ∧
        (0 : ℚ) ≤ (((P - 1) * L : Nat) : ℚ) ∧
        (AtMostLimit (db.store m) →
          ∀ count rows, (db.store m).findAndCountAll options = .ok (count, rows) →
            (handler m .getAll db req).response =
              ⟨200, .envelope count (.fin (P : ℚ)) (Math.ceil (count / .fin (L : ℚ))) rows⟩ ∧
            rows.length ≤ L)) ∧
    getAllStudents (memoryDb [] twelveStudents [])
        ⟨⟨""⟩, ⟨some "5", some "2", some "asc", none⟩, []⟩ =
      ⟨[.findAndCountAll .Student ⟨.fin 5, .fin 5, [("createdAt", "ASC")], []⟩],
        ⟨200, .envelope (.fin 12) (.fin 2) (.fin 3)
          [student 6, student 7, student 8, student 9, student 10]⟩⟩ := by
  constructor
  · intro m db req L P hL hP hL53 hP53 hPL hl hp
    obtain ⟨options, hc, hlim, hoff, -, -, hok, -⟩ := getAll_spec m db req
    have hlim1 : options.limit = .fin (L : ℚ) := by
      rw [hlim]; exact (orElse_parseInt req.query.limit (.fin 10)).2.2.2.1 L hL hL53 hl
    have hpage : orElse (parseInt req.query.page) (.fin 1) = .fin (P : ℚ) :=
      (orElse_parseInt req.query.page (.fin 1)).2.2.2.1 P hP hP53 hp
    have hoff1 : options.offset = .fin (((P - 1) * L : Nat) : ℚ) := by
      rw [hoff, hpage, hlim1]; exact offset_exact P L hP hP53 hL hPL
    refine ⟨options, hc, hlim1, hoff1, Nat.cast_nonneg _, ?_⟩
    intro hstore count rows h
    refine ⟨?_, hstore options L count rows hlim1 h⟩
    rw [hok count rows h, hpage, hlim1]
  · decide!

set_option maxRecDepth 100000 in
/-- C3 (witness): the general statement at the scenario, page 2 of 5 on the reference
store over twelve students: offset 5, five rows in the envelope. -/
theorem page_window_witness :
    AtMostLimit (memoryStore twelveStudents) ∧
    ∃ options : FindOptions,
      (handler .Student .getAll (memoryDb [] twelveStudents [])
          ⟨⟨""⟩, ⟨some "5", some "2", some "asc", none⟩, []⟩).calls
        = [.findAndCountAll .Student options] ∧
      options.limit = .fin ((5 : Nat) : ℚ) ∧ options.offset = .fin (((2 - 1) * 5 : Nat) : ℚ) ∧
      (handler .Student .getAll (memoryDb [] twelveStudents [])
          ⟨⟨""⟩, ⟨some "5", some "2", some "asc", none⟩, []⟩).response =
        ⟨200, .envelope (.fin 12) (.fin ((2 : Nat) : ℚ))
          (Math.ceil (.fin 12 / .fin ((5 : Nat) : ℚ)))
          [student 6, student 7, student 8, student 9, student 10]⟩ ∧
      [student 6, student 7, student 8, student 9, student 10].length ≤ 5 := by
  refine ⟨memoryStore_atMostLimit _, ?_⟩
  obtain ⟨options, hc, hl, ho, -, hdata⟩ :=
    page_window.1 .Student (memoryDb [] twelveStudents [])
      ⟨⟨""⟩, ⟨some "5", some "2", some "asc", none⟩, []⟩ 5 2 (by decide) (by decide)
      (by norm_num) (by norm_num) (by norm_num) rfl rfl
  have hcalls : (handler .Student .getAll (memoryDb [] twelveStudents [])
      ⟨⟨""⟩, ⟨some "5", some "2", some "asc", none⟩, []⟩).calls =
      [.findAndCountAll .Student ⟨.fin 5, .fin 5, [("createdAt", "ASC")], []⟩] := by decide!
  have hopt : options = ⟨.fin 5, .fin 5, [("createdAt", "ASC")], []⟩ := by
    rw [hcalls] at hc
    injection hc with hc _
    injection hc with _ hopt
    exact hopt.symm
  have hstore : (memoryStore twelveStudents).findAndCountAll
      ⟨.fin 5, .fin 5, [("createdAt", "ASC")], []⟩ =
      .ok (.fin 12, [student 6, student 7, student 8, student 9, student 10]) := by rfl
  have hrows := hdata (memoryStore_atMostLimit _) (.fin 12)
    [student 6, student 7, student 8, student 9, student 10] (by rw [hopt]; exact hstore)
  exact ⟨options, hc, hl, ho, hrows.1, hrows.2⟩

set_option maxRecDepth 100000 in
/-- C3 (counterexample): `limit=94906267&page=94906268` are decimal texts of positive
integers, `(P - 1) * L` is 9007199515875289, and the offset sent to the store is
9007199515875288. -/
theorem large_offset_is_rounded :
    (getAllStudents (memoryDb [] [] [])
        ⟨⟨""⟩, ⟨some "94906267", some "94906268", none, none⟩, []⟩).calls =
      [.findAndCountAll .Student
        ⟨.fin 94906267, .fin 9007199515875288, [("createdAt", "DESC")], []⟩] ∧
    (94906268 - 1) * 94906267 = 9007199515875289 ∧
    JSNumber.fin 9007199515875288 ≠ .fin (((94906268 - 1) * 94906267 : Nat) : ℚ) := by
  decide!

/-- C4 (amended): in every list handler, whenever the store answers the page query with
a count and rows, the envelope carries that count as `total`, the rows unchanged as
`data`, and `totalPages = Math.ceil(total / limit)` in double arithmetic for the
normalised limit, which is never zero and never `NaN`; `totalPages` is a zero when the
total is 0.  When the total and the normalised limit are integers of magnitude at most
`2 ^ 53`, `totalPages` is the exact `ceil (total / limit)` (the negative zero when that
is 0 and the limit is negative); then for a positive limit and a positive total it is
the least non-negative integer `n` with `n * limit >= total`, and for a negative limit
it is at most 0. -/
theorem totalPages_spec (m : Model) (db : Db) (req : Request) (options : FindOptions)
    (count : JSNumber) (rows : List Record)
    (hcall : (handler m .getAll db req).calls = [.findAndCountAll m options])
    (hstore : (db.store m).findAndCountAll options = .ok (count, rows)) :
    ∃ (page totalPages : JSNumber),
      (handler m .getAll db req).response = ⟨200, .envelope count page totalPages rows⟩ ∧
      options.limit = orElse (parseInt req.query.limit) (.fin 10) ∧
      options.limit.toBoolean = true ∧
      totalPages = Math.ceil (count / options.limit) ∧
      (count = .fin 0 → totalPages.isZero = true) ∧
      (∀ c l : Nat, count = .fin (c : ℚ) → options.limit = .fin (l : ℚ) →
        c ≤ 2 ^ 53 → 0 < l → l ≤ 2 ^ 53 →
        totalPages = .fin (Int.ceil ((c : ℚ) / (l : ℚ))) ∧
        (0 < c → 0 ≤ Int.ceil ((c : ℚ) / (l : ℚ)) ∧
          (c : Int) ≤ Int.ceil ((c : ℚ) / (l : ℚ)) * l ∧
          ∀ n : Int, 0 ≤ n → (c : Int) ≤ n * l → Int.ceil ((c : ℚ) / (l : ℚ)) ≤ n)) ∧
      (∀ c l : Nat, count = .fin (c : ℚ) → options.limit = .fin (-(l : ℚ)) →
        c ≤ 2 ^ 53 → 0 < l → l ≤ 2 ^ 53 →
        totalPages = (if Int.ceil ((c : ℚ) / (-(l : ℚ))) = 0 then .negZero
          else .fin (Int.ceil ((c : ℚ) / (-(l : ℚ))))) ∧
        Int.ceil ((c : ℚ) / (-(l : ℚ))) ≤ 0) := by
  obtain ⟨options1, hc, hlim, -, -, -, hok, -⟩ := getAll_spec m db req
  have hopt : options1 = options := by
    rw [hcall] at hc
    injection hc with hc _
    injection hc with _ hopt
    exact hopt.symm
  subst hopt
  have htrue : options1.limit.toBoolean = true := by
    rw [hlim]; exact orElse_toBoolean _ _ (by decide)
  refine ⟨_, _, hok count rows hstore, hlim, htrue, rfl, ?_, ?_, ?_⟩
  · intro h0; rw [h0]; exact ceil_zero_div _ htrue
  · intro c l hcount hl hc53 hlpos hl53
    rw [hcount, hl]
    refine ⟨ceil_div_pos c l hc53 hlpos hl53, ?_⟩
    intro hcpos
    have hposq : (0 : ℚ) < (l : ℚ) := by exact_mod_cast hlpos
    have hcq : (0 : ℚ) ≤ (c : ℚ) := Nat.cast_nonneg c
    refine ⟨?_, ?_, ?_⟩
    · exact Int.ceil_nonneg (div_nonneg hcq hposq.le)
    · have h := Int.le_ceil ((c : ℚ) / (l : ℚ))
      rw [div_le_iff₀ hposq] at h
      exact_mod_cast h
    · intro n _ hn
      rw [Int.ceil_le, div_le_iff₀ hposq]
      exact_mod_cast hn
  · intro c l hcount hl hc53 hlpos hl53
    rw [hcount, hl]
    refine ⟨ceil_div_neg c l hc53 hlpos hl53, ?_⟩
    have hposq : (0 : ℚ) < (l : ℚ) := by exact_mod_cast hlpos
    have hnegq : -(l : ℚ) ≤ 0 := by linarith
    rw [Int.ceil_le]
    simpa using div_nonpos_of_nonneg_of_nonpos (Nat.cast_nonneg c : (0 : ℚ) ≤ (c : ℚ)) hnegq

set_option maxRecDepth 100000 in
/-- C4 (witness): seven courses with the raw limit `3`: three pages. -/
theorem totalPages_spec_witness :
    ∃ (page totalPages : JSNumber),
      (handler .Course .getAll (fixedDb (.fin ((7 : Nat) : ℚ)) [] none)
          ⟨⟨""⟩, ⟨some "3", none, none, none⟩, []⟩).response =
        ⟨200, .envelope (.fin ((7 : Nat) : ℚ)) page totalPages []⟩ ∧
      totalPages = .fin 3 := by
  obtain ⟨page, totalPages, hr, -, -, -, -, htp, -⟩ :=
    totalPages_spec .Course (fixedDb (.fin ((7 : Nat) : ℚ)) [] none)
      ⟨⟨""⟩, ⟨some "3", none, none, none⟩, []⟩
      ⟨.fin ((3 : Nat) : ℚ), .fin 0, [("createdAt", "DESC")], []⟩ (.fin ((7 : Nat) : ℚ)) []
      (by decide!) rfl
  have hceil : Int.ceil (((7 : Nat) : ℚ) / ((3 : Nat) : ℚ)) = 3 := by
    rw [Int.ceil_eq_iff]; norm_num
  refine ⟨page, totalPages, hr, ?_⟩
  rw [(htp 7 3 rfl rfl (by norm_num) (by decide) (by norm_num)).1, hceil]
  norm_num

set_option maxRecDepth 100000 in
/-- C4 (counterexample): with the raw limit `-5` and a store count of 12 the envelope has
`totalPages = -2`, which is not a non-negative integer `n` with `n * limit >= total`;
with a raw limit of 1 followed by 400 zeros the limit is `Infinity` and the envelope has
`totalPages = 0` for a total of 12. -/
theorem negative_limit_negative_pages :
    (getAllCourses (fixedDb (.fin 12) [] none)
        ⟨⟨""⟩, ⟨some "-5", none, none, none⟩, []⟩).response =
      ⟨200, .envelope (.fin 12) (.fin 1) (.fin (-2)) []⟩ ∧
    ¬ ((0 : Int) ≤ -2 ∧ (12 : Int) ≤ -2 * -5) ∧
    getAllCourses (fixedDb (.fin 12) [] none)
        ⟨⟨""⟩, ⟨some (String.mk ('1' :: List.replicate 400 '0')), none, none, none⟩, []⟩ =
      ⟨[.findAndCountAll .Course ⟨.inf false, .nan, [("createdAt", "DESC")], []⟩],
        ⟨200, .envelope (.fin 12) (.fin 1) (.fin 0) []⟩⟩ := by
  decide!

/-- C5: in every list handler the order sent to the store is `[['createdAt', 'ASC']]`
exactly when the raw `sort` is the string `asc`, and `[['createdAt', 'DESC']]` for every
other value: `ASC`, `Desc`, an absent value, anything else. -/
theorem sort_direction (m : Model) (db : Db) (req : Request) :
    ∃ options : FindOptions,
      (handler m .getAll db req).calls = [.findAndCountAll m options] ∧
      (options.order = [("createdAt", "ASC")] ↔ req.query.sort = some "asc") ∧
      (req.query.sort ≠ some "asc" → options.order = [("createdAt", "DESC")]) ∧
      (req.query.sort = some "ASC" ∨ req.query.sort = some "Desc" ∨ req.query.sort = none →
        options.order = [("createdAt", "DESC")]) := by
  obtain ⟨options, hc, -, -, ho, -⟩ := getAll_spec m db req
  refine ⟨options, hc, ?_, ?_, ?_⟩
  · rw [ho]
    by_cases h : req.query.sort = some "asc"
    · simp [h]
    · simp [h]
  · intro h; rw [ho]; simp [h]
  · intro h
    have hne : req.query.sort ≠ some "asc" := by
      rcases h with h | h | h <;> rw [h] <;> decide
    rw [ho]; simp [hne]

/-- C5 (witness): the raw sort `ASC` is not `asc`; the order is descending. -/
theorem sort_direction_witness :
    ∃ options : FindOptions,
      (handler .Student .getAll (memoryDb [] [] [])
          ⟨⟨""⟩, ⟨none, none, some "ASC", none⟩, []⟩).calls
        = [.findAndCountAll .Student options] ∧
      options.order = [("createdAt", "DESC")] := by
  obtain ⟨options, hc, -, hne, -⟩ :=
    sort_direction .Student (memoryDb [] [] []) ⟨⟨""⟩, ⟨none, none, some "ASC", none⟩, []⟩
  exact ⟨options, hc, hne (by decide)⟩

/-- What a get-by-id handler does: one `findByPk` with the include list of the
`populate` value, then 404, the record, or status 500. -/
theorem getById_shape (m : Model) (db : Db) (req : Request) :
    handler m .getById db req =
      match (db.store m).findByPk req.params.id
          (some ⟨expectedIncludes m req.query.populate⟩) with
      | .ok none =>
        ⟨[.findByPk m req.params.id (some ⟨expectedIncludes m req.query.populate⟩)],
          ⟨404, .message "Not found"⟩⟩
      | .ok (some record) =>
        ⟨[.findByPk m req.params.id (some ⟨expectedIncludes m req.query.populate⟩)],
          ⟨200, .record record⟩⟩
      | .error err =>
        ⟨[.findByPk m req.params.id (some ⟨expectedIncludes m req.query.populate⟩)],
          ⟨500, .error err.message⟩⟩ := by
  cases m
  · simp only [handler, getCourseById, Db.store, includes_course]
  · simp only [handler, getStudentById, Db.store, includes_courses .Student (by decide)]
  · simp only [handler, getTeacherById, Db.store, includes_courses .Teacher (by decide)]

/-- What a create handler does. -/
theorem create_shape (m : Model) (db : Db) (req : Request) :
    handler m .create db req =
      match (db.store m).create req.body with
      | .ok record => ⟨[.create m req.body], ⟨201, .record record⟩⟩
      | .error err => ⟨[.create m req.body], ⟨500, .error err.message⟩⟩ := by
  cases m <;> rfl

/-- What an update handler does. -/
theorem update_shape (m : Model) (db : Db) (req : Request) :
    handler m .update db req =
      match (db.store m).findByPk req.params.id none with
      | .ok none => ⟨[.findByPk m req.params.id none], ⟨404, .message "Not found"⟩⟩
      | .ok (some record) =>
        match (db.store m).update record req.body with
        | .ok updated =>
          ⟨[.findByPk m req.params.id none, .update m record req.body],
            ⟨200, .record updated⟩⟩
        | .error err =>
          ⟨[.findByPk m req.params.id none, .update m record req.body],
            ⟨500, .error err.message⟩⟩
      | .error err => ⟨[.findByPk m req.params.id none], ⟨500, .error err.message⟩⟩ := by
  cases m <;> rfl

/-- What a delete handler does. -/
theorem delete_shape (m : Model) (db : Db) (req : Request) :
    handler m .delete db req =
      match (db.store m).findByPk req.params.id none with
      | .ok none => ⟨[.findByPk m req.params.id none], ⟨404, .message "Not found"⟩⟩
      | .ok (some record) =>
        match (db.store m).destroy record with
        | .ok _ =>
          ⟨[.findByPk m req.params.id none, .destroy m record], ⟨200, .message "Deleted"⟩⟩
        | .error err =>
          ⟨[.findByPk m req.params.id none, .destroy m record], ⟨500, .error err.message⟩⟩
      | .error err => ⟨[.findByPk m req.params.id none], ⟨500, .error err.message⟩⟩ := by
  cases m <;> rfl

theorem expectedIncludes_course (populate : Option String) :
    (populate = some "teacher" → expectedIncludes .Course populate = [.Teacher]) ∧
    (populate = some "students" → expectedIncludes .Course populate = [.Student]) ∧
    (populate ≠ some "teacher" → populate ≠ some "students" →
      expectedIncludes .Course populate = []) := by
  refine ⟨?_, ?_, ?_⟩
  · rintro rfl; decide
  · rintro rfl; decide
  · intro h1 h2
    cases populate with
    | none => rfl
    | some p =>
      have h1b : (p == "teacher") = false := by simpa using h1
      have h2b : (p == "students") = false := by simpa using h2
      simp [expectedIncludes, populateEnum, List.lookup, h1b, h2b]

theorem expectedIncludes_courses (m : Model) (hm : m ≠ .Course) (populate : Option String) :
    (populate = some "courses" → expectedIncludes m populate = [.Course]) ∧
    (populate ≠ some "courses" → expectedIncludes m populate = []) := by
  have hp : populateEnum m = [("courses", .Course)] := by
    cases m <;> first | rfl | exact absurd rfl hm
  refine ⟨?_, ?_⟩
  · rintro rfl; simp [expectedIncludes, hp, List.lookup]
  · intro h1
    cases populate with
    | none => rfl
    | some p =>
      have h1b : (p == "courses") = false := by simpa using h1
      simp [expectedIncludes, hp, List.lookup, h1b]

/-- The store call of a list or get-by-id handler and its include list. -/
theorem read_call (m : Model) (op : Op) (hop : op = .getAll ∨ op = .getById) (db : Db)
    (req : Request) :
    ∃ c : StoreCall, (handler m op db req).calls = [c] ∧
      c.includes = expectedIncludes m req.query.populate ∧
      ((handler m op db req).response.status = 500 → ∃ err, c.failure db = some err) := by
  rcases hop with rfl | rfl
  · refine ⟨.findAndCountAll m ⟨orElse (parseInt req.query.limit) (.fin 10),
      (orElse (parseInt req.query.page) (.fin 1) - .fin 1) *
        orElse (parseInt req.query.limit) (.fin 10),
      [("createdAt", if req.query.sort = some "asc" then "ASC" else "DESC")],
      expectedIncludes m req.query.populate⟩, ?_, rfl, ?_⟩
    · rw [getAll_shape]; split <;> rfl
    · rw [getAll_shape]
      simp only [StoreCall.failure]
      split
      · intro h; simp at h
      · rename_i err heq; intro _; rw [heq]; exact ⟨err, rfl⟩
  · refine ⟨.findByPk m req.params.id (some ⟨expectedIncludes m req.query.populate⟩),
      ?_, rfl, ?_⟩
    · rw [getById_shape]; split <;> rfl
    · rw [getById_shape]
      simp only [StoreCall.failure]
      split
      · intro h; simp at h
      · intro h; simp at h
      · rename_i err heq; intro _; rw [heq]; exact ⟨err, rfl⟩

/-- C6: in every list and get-by-id handler the include list sent to the store has at
most one element: for Course it is `[Teacher]` when `populate` is exactly `teacher` and
`[Student]` when exactly `students`; for Student and for Teacher it is `[Course]` when
exactly `courses`; for every other value it is empty, the handler then does what it
does without `populate`, and it answers 500 only if the store call itself fails. -/
theorem populate_includes (m : Model) (op : Op) (hop : op = .getAll ∨ op = .getById)
    (db : Db) (req : Request) :
    ∃ c : StoreCall, (handler m op db req).calls = [c] ∧ c.includes.length ≤ 1 ∧
      (m = .Course → req.query.populate = some "teacher" → c.includes = [.Teacher]) ∧
      (m = .Course → req.query.populate = some "students" → c.includes = [.Student]) ∧
      (m = .Course → req.query.populate ≠ some "teacher" →
        req.query.populate ≠ some "students" → c.includes = []) ∧
      (m ≠ .Course → req.query.populate = some "courses" → c.includes = [.Course]) ∧
      (m ≠ .Course → req.query.populate ≠ some "courses" → c.includes = []) ∧
      (c.includes = [] → handler m op db req =
        handler m op db ⟨req.params, ⟨req.query.limit, req.query.page, req.query.sort, none⟩,
          req.body⟩) ∧
      ((handler m op db req).response.status = 500 → ∃ err, c.failure db = some err) := by
  obtain ⟨c, hc, hinc, herr⟩ := read_call m op hop db req
  have hlen : (expectedIncludes m req.query.populate).length ≤ 1 := by
    unfold expectedIncludes
    split
    · simp
    · split <;> simp
  refine ⟨c, hc, by rw [hinc]; exact hlen, ?_, ?_, ?_, ?_, ?_, ?_, herr⟩
  · rintro rfl h; rw [hinc]; exact (expectedIncludes_course _).1 h
  · rintro rfl h; rw [hinc]; exact (expectedIncludes_course _).2.1 h
  · rintro rfl h1 h2; rw [hinc]; exact (expectedIncludes_course _).2.2 h1 h2
  · intro hm h; rw [hinc]; exact (expectedIncludes_courses m hm _).1 h
  · intro hm h; rw [hinc]; exact (expectedIncludes_courses m hm _).2 h
  · intro h
    rw [hinc] at h
    have h0 : expectedIncludes m none = [] := rfl
    rcases hop with rfl | rfl
    · rw [getAll_shape, getAll_shape]; simp only [h, h0]
    · rw [getById_shape, getById_shape]; simp only [h, h0]

/-- C6 (witness): `populate=courses` is not in the enum of Course: no relation is
attached, also for the wrong case `Teacher`. -/
theorem populate_includes_witness :
    ∃ c : StoreCall,
      (handler .Course .getById (memoryDb [] [] [])
          ⟨⟨"1"⟩, ⟨none, none, none, some "courses"⟩, []⟩).calls = [c] ∧
      c.includes = [] := by
  obtain ⟨c, hc, -, -, -, hnone, -⟩ :=
    populate_includes .Course .getById (Or.inr rfl) (memoryDb [] [] [])
      ⟨⟨"1"⟩, ⟨none, none, none, some "courses"⟩, []⟩
  exact ⟨c, hc, hnone rfl (by decide) (by decide)⟩

/-- C7: for each entity and each of get-by-id, update and delete, when the store's
`findByPk` for the identifier succeeds and reports absence, the response is status 404
with body `{message: "Not found"}`, not 500, and that lookup is the only call made on
the store: no `update` and no `destroy`.  The lookup of update and delete carries no
options; that of get-by-id carries the include list of `populate`. -/
theorem not_found (m : Model) (db : Db) (req : Request) :
    ((db.store m).findByPk req.params.id
        (some ⟨expectedIncludes m req.query.populate⟩) = .ok none →
      handler m .getById db req =
        ⟨[.findByPk m req.params.id (some ⟨expectedIncludes m req.query.populate⟩)],
          ⟨404, .message "Not found"⟩⟩) ∧
    ((db.store m).findByPk req.params.id none = .ok none →
      handler m .update db req =
        ⟨[.findByPk m req.params.id none], ⟨404, .message "Not found"⟩⟩ ∧
      handler m .delete db req =
        ⟨[.findByPk m req.params.id none], ⟨404, .message "Not found"⟩⟩) ∧
    ((∀ options, (db.store m).findByPk req.params.id options = .ok none) →
      ∀ op, op = .getById ∨ op = .update ∨ op = .delete →
        (handler m op db req).response = ⟨404, .message "Not found"⟩ ∧
        (handler m op db req).response.status ≠ 500 ∧
        ∃ options, (handler m op db req).calls = [.findByPk m req.params.id options]) := by
  have h1 : (db.store m).findByPk req.params.id
        (some ⟨expectedIncludes m req.query.populate⟩) = .ok none →
      handler m .getById db req =
        ⟨[.findByPk m req.params.id (some ⟨expectedIncludes m req.query.populate⟩)],
          ⟨404, .message "Not found"⟩⟩ := by
    intro h; rw [getById_shape, h]
  have h2 : (db.store m).findByPk req.params.id none = .ok none →
      handler m .update db req =
        ⟨[.findByPk m req.params.id none], ⟨404, .message "Not found"⟩⟩ ∧
      handler m .delete db req =
        ⟨[.findByPk m req.params.id none], ⟨404, .message "Not found"⟩⟩ := by
    intro h
    constructor
    · rw [update_shape, h]
    · rw [delete_shape, h]
  refine ⟨h1, h2, ?_⟩
  intro h op hop
  rcases hop with rfl | rfl | rfl
  · rw [h1 (h _)]; exact ⟨rfl, by simp, _, rfl⟩
  · rw [(h2 (h _)).1]; exact ⟨rfl, by simp, _, rfl⟩
  · rw [(h2 (h _)).2]; exact ⟨rfl, by simp, _, rfl⟩

/-- C7 (witness): deleting the teacher 4 from an empty collection. -/
theorem not_found_witness :
    (memoryStore []).findByPk "4" none = .ok none ∧
    handler .Teacher .delete (memoryDb [] [] []) ⟨⟨"4"⟩, ⟨none, none, none, none⟩, []⟩ =
      ⟨[.findByPk .Teacher "4" none], ⟨404, .message "Not found"⟩⟩ :=
  ⟨rfl, ((not_found .Teacher (memoryDb [] [] [])
    ⟨⟨"4"⟩, ⟨none, none, none, none⟩, []⟩).2.1 rfl).2⟩

/-- A failing store call ends the request with status 500 and the message of the error. -/
theorem failure_gives_500 (m : Model) (op : Op) (db : Db) (req : Request) (c : StoreCall)
    (hc : c ∈ (handler m op db req).calls) (err : Err) (hf : c.failure db = some err) :
    (handler m op db req).response = ⟨500, .error err.message⟩ := by
  cases op
  · rw [create_shape] at hc ⊢
    cases h : (db.store m).create req.body <;>
      simp only [h, List.mem_singleton] at hc <;> subst hc <;>
      simp [StoreCall.failure, h] at hf ⊢
    rw [hf]
  · rw [getAll_shape] at hc ⊢
    cases h : (db.store m).findAndCountAll
        ⟨orElse (parseInt req.query.limit) (.fin 10),
          (orElse (parseInt req.query.page) (.fin 1) - .fin 1) *
            orElse (parseInt req.query.limit) (.fin 10),
          [("createdAt", if req.query.sort = some "asc" then "ASC" else "DESC")],
          expectedIncludes m req.query.populate⟩ <;>
      simp only [h, List.mem_singleton] at hc <;> subst hc <;>
      simp [StoreCall.failure, h] at hf ⊢
    rw [hf]
  · rw [getById_shape] at hc ⊢
    cases h : (db.store m).findByPk req.params.id
        (some ⟨expectedIncludes m req.query.populate⟩) with
    | error e =>
      simp only [h, List.mem_singleton] at hc; subst hc
      simp [StoreCall.failure, h] at hf ⊢
      rw [hf]
    | ok found =>
      cases found <;> simp only [h, List.mem_singleton] at hc <;> subst hc <;>
        simp [StoreCall.failure, h] at hf
  · rw [update_shape] at hc ⊢
    cases h : (db.store m).findByPk req.params.id none with
    | error e =>
      simp only [h, List.mem_singleton] at hc; subst hc
      simp [StoreCall.failure, h] at hf ⊢
      rw [hf]
    | ok found =>
      cases found with
      | none =>
        simp only [h, List.mem_singleton] at hc; subst hc
        simp [StoreCall.failure, h] at hf
      | some record =>
        simp only [h] at hc ⊢
        cases h2 : (db.store m).update record req.body <;>
          simp only [h2, List.mem_cons, List.mem_singleton, List.not_mem_nil, or_false] at hc ⊢ <;>
          rcases hc with rfl | rfl <;>
          simp [StoreCall.failure, h, h2] at hf ⊢
        rw [hf]
  · rw [delete_shape] at hc ⊢
    cases h : (db.store m).findByPk req.params.id none with
    | error e =>
      simp only [h, List.mem_singleton] at hc; subst hc
      simp [StoreCall.failure, h] at hf ⊢
      rw [hf]
    | ok found =>
      cases found with
      | none =>
        simp only [h, List.mem_singleton] at hc; subst hc
        simp [StoreCall.failure, h] at hf
      | some record =>
        simp only [h] at hc ⊢
        cases h2 : (db.store m).destroy record <;>
          simp only [h2, List.mem_cons, List.mem_singleton, List.not_mem_nil, or_false] at hc ⊢ <;>
          rcases hc with rfl | rfl <;>
          simp [StoreCall.failure, h, h2] at hf ⊢
        rw [hf]

/-- C8: for every handler of every entity, if a store call it makes fails with an error,
the response is status 500 with body `{error: m}` for the message `m` of that error, and
a response with status 200 or 201 is sent only when no store call failed; create
responds 201 with the created record if and only if the store insert succeeds. -/
theorem store_failure (m : Model) (op : Op) (db : Db) (req : Request) :
    (∀ c ∈ (handler m op db req).calls, ∀ err : Err, c.failure db = some err →
      (handler m op db req).response = ⟨500, .error err.message⟩) ∧
    ((handler m op db req).response.status = 200 ∨
        (handler m op db req).response.status = 201 →
      ∀ c ∈ (handler m op db req).calls, c.failure db = none) ∧
    (∀ record, (handler m .create db req).response = ⟨201, .record record⟩ ↔
      (db.store m).create req.body = .ok record) ∧
    ((handler m .create db req).response.status = 201 ↔
      ∃ record, (db.store m).create req.body = .ok record) := by
  refine ⟨fun c hc err hf => failure_gives_500 m op db req c hc err hf, ?_, ?_, ?_⟩
  · intro hs c hc
    cases hf : c.failure db with
    | none => rfl
    | some err =>
      rw [failure_gives_500 m op db req c hc err hf] at hs
      simp at hs
  · intro record
    rw [create_shape]
    cases h : (db.store m).create req.body <;> simp
  · rw [create_shape]
    cases h : (db.store m).create req.body <;> simp

/-- C8 (witness): an update whose lookup succeeds and whose write fails with
`SQLITE_BUSY`: status 500 with that message. -/
theorem store_failure_witness :
    (.update .Course [("id", .num 1)] [("title", .str "Algo")]) ∈
      (handler .Course .update (readOnlyDb [("id", .num 1)] ⟨"SQLITE_BUSY"⟩)
        ⟨⟨"1"⟩, ⟨none, none, none, none⟩, [("title", .str "Algo")]⟩).calls ∧
    (handler .Course .update (readOnlyDb [("id", .num 1)] ⟨"SQLITE_BUSY"⟩)
        ⟨⟨"1"⟩, ⟨none, none, none, none⟩, [("title", .str "Algo")]⟩).response =
      ⟨500, .error "SQLITE_BUSY"⟩ :=
  have hc : (.update .Course [("id", .num 1)] [("title", .str "Algo")]) ∈
      (handler .Course .update (readOnlyDb [("id", .num 1)] ⟨"SQLITE_BUSY"⟩)
        ⟨⟨"1"⟩, ⟨none, none, none, none⟩, [("title", .str "Algo")]⟩).calls := by decide
  ⟨hc, (store_failure .Course .update (readOnlyDb [("id", .num 1)] ⟨"SQLITE_BUSY"⟩)
      ⟨⟨"1"⟩, ⟨none, none, none, none⟩, [("title", .str "Algo")]⟩).1
    (.update .Course [("id", .num 1)] [("title", .str "Algo")]) hc ⟨"SQLITE_BUSY"⟩ rfl⟩

/-- C9 (amended): counting the calls on the store during one request, the create handler
and the get-by-id handler issue exactly one call, the update handler at most two (the
lookup, then the write when the record exists) and the delete handler at most two (the
lookup, then the destroy when the record exists): a delete of an existing record
issues two calls. -/
theorem store_call_count (m : Model) (db : Db) (req : Request) :
    (handler m .create db req).calls = [.create m req.body] ∧
    (∃ options, (handler m .getById db req).calls = [.findByPk m req.params.id options]) ∧
    ((handler m .update db req).calls.length ≤ 2 ∧
      ((handler m .update db req).calls = [.findByPk m req.params.id none] ∨
        ∃ record, (handler m .update db req).calls =
          [.findByPk m req.params.id none, .update m record req.body])) ∧
    ((handler m .delete db req).calls.length ≤ 2 ∧
      ((handler m .delete db req).calls = [.findByPk m req.params.id none] ∨
        ∃ record, (handler m .delete db req).calls =
          [.findByPk m req.params.id none, .destroy m record])) ∧
    (∀ record, (db.store m).findByPk req.params.id none = .ok (some record) →
      (handler m .delete db req).calls =
        [.findByPk m req.params.id none, .destroy m record]) := by
  refine ⟨?_, ?_, ?_, ?_, ?_⟩
  · rw [create_shape]; split <;> rfl
  · refine ⟨some ⟨expectedIncludes m req.query.populate⟩, ?_⟩
    rw [getById_shape]; split <;> rfl
  · rw [update_shape]
    cases h : (db.store m).findByPk req.params.id none with
    | error e => simp
    | ok found =>
      cases found with
      | none => simp
      | some record => cases h2 : (db.store m).update record req.body <;> simp [h2]
  · rw [delete_shape]
    cases h : (db.store m).findByPk req.params.id none with
    | error e => simp
    | ok found =>
      cases found with
      | none => simp
      | some record => cases h2 : (db.store m).destroy record <;> simp [h2]
  · intro record h
    rw [delete_shape, h]
    cases h2 : (db.store m).destroy record <;> simp [h2]

/-- C9 (witness): deleting the existing course 1 issues the lookup and the destroy. -/
theorem store_call_count_witness :
    (handler .Course .delete (memoryDb [[("id", .num 1)]] [] [])
        ⟨⟨"1"⟩, ⟨none, none, none, none⟩, []⟩).calls =
      [.findByPk .Course "1" none, .destroy .Course [("id", .num 1)]] :=
  (store_call_count .Course (memoryDb [[("id", .num 1)]] [] [])
    ⟨⟨"1"⟩, ⟨none, none, none, none⟩, []⟩).2.2.2.2 [("id", .num 1)] (by rfl)

/-- C9 (counterexample): the delete handler on an existing course issues two store
calls, not at most one. -/
theorem delete_existing_two_calls :
    (deleteCourse (memoryDb [[("id", .num 1)]] [] [])
        ⟨⟨"1"⟩, ⟨none, none, none, none⟩, []⟩).calls.length = 2 ∧
    ¬ (deleteCourse (memoryDb [[("id", .num 1)]] [] [])
        ⟨⟨"1"⟩, ⟨none, none, none, none⟩, []⟩).calls.length ≤ 1 := by
  constructor <;> decide

theorem Record.get_assign (r values : Record) (f : String) :
    (r.assign values).get f = (values.get f).or (r.get f) := by
  unfold Record.assign Record.get
  rw [List.lookup_append]
  cases hv : List.lookup f values with
  | some v => simp
  | none =>
    simp only [Option.none_or]
    induction r with
    | nil => rfl
    | cons kv rest ih =>
      obtain ⟨k, v⟩ := kv
      by_cases hk : f = k
      · subst hk
        simp [List.filter, Record.get, hv, List.lookup]
      · have hk2 : (f == k) = false := by simpa using hk
        simp only [List.filter]
        split
        · simp only [List.lookup, hk2, ih]
        · simp only [List.lookup, hk2, ih]

/-- The reference store overwrites exactly the supplied fields. -/
theorem memoryStore_overwritesSupplied (coll : List Record) :
    OverwritesSupplied (memoryStore coll) := by
  intro record values updated h
  simp only [memoryStore] at h
  injection h with h
  subst h
  constructor
  · intro f hf; rw [Record.get_assign, hf]; rfl
  · intro f v hf; rw [Record.get_assign, hf]; rfl

/-- C10: in each entity's update handler, for every record `r` found under the
identifier and every request body `b`, the handler has looked the record up without
relations and passes `b` unchanged to the update of `r`; when that update gives the
updated record the response is 200 with it, and under a store whose update overwrites
exactly the fields present in `b`, every field of `r` not present in `b` has in the
returned record the value it had before, and every field of `b` has the value of `b`. -/
theorem update_keeps_other_fields (m : Model) (db : Db) (req : Request) (r : Record)
    (hfind : (db.store m).findByPk req.params.id none = .ok (some r)) :
    (handler m .update db req).calls =
      [.findByPk m req.params.id none, .update m r req.body] ∧
    ∀ updated, (db.store m).update r req.body = .ok updated →
      (handler m .update db req).response = ⟨200, .record updated⟩ ∧
      (OverwritesSupplied (db.store m) →
        (∀ f, req.body.get f = none → updated.get f = r.get f) ∧
        (∀ f v, req.body.get f = some v → updated.get f = some v)) := by
  constructor
  · rw [update_shape, hfind]
    cases h2 : (db.store m).update r req.body <;> simp [h2]
  · intro updated hup
    constructor
    · rw [update_shape, hfind]; simp only [hup]
    · intro hstore
      exact hstore r req.body updated hup

/-- C10 (witness): renaming student 3 on the reference store keeps `id` and
`createdAt`. -/
theorem update_keeps_other_fields_witness :
    (handler .Student .update (memoryDb [] twelveStudents [])
        ⟨⟨"3"⟩, ⟨none, none, none, none⟩, [("name", .str "Ada")]⟩).response =
      ⟨200, .record [("name", .str "Ada"), ("id", .num 3), ("createdAt", .num 3)]⟩ ∧
    Record.get [("name", .str "Ada"), ("id", .num 3), ("createdAt", .num 3)] "createdAt" =
      Record.get (student 3) "createdAt" := by
  have h := (update_keeps_other_fields .Student (memoryDb [] twelveStudents [])
    ⟨⟨"3"⟩, ⟨none, none, none, none⟩, [("name", .str "Ada")]⟩ (student 3) (by rfl)).2
    [("name", .str "Ada"), ("id", .num 3), ("createdAt", .num 3)] (by rfl)
  exact ⟨h.1, (h.2 (memoryStore_overwritesSupplied _)).1 "createdAt" (by decide)⟩

end SchoolApi
